import Mathlib

/-!
Verification development for the schema-stitching engine in
`merge-remote-schemas.ts` (repository `merge-remote-graphql-schemas`).

The TypeScript source is shallowly embedded: JavaScript runtime values are
modelled by the inductive `Value` (with error lists standing for the
`ERROR_SYMBOL` property that `graphql-tools` attaches to partial results),
JS objects are modelled as insertion-ordered association lists (matching
`Object.entries` iteration order for string keys), and the asynchronous
`delegateToSchema` calls are modelled by returning an explicit
`DelegationRequest` describing exactly the call the code would make.
-/

namespace MergeRemote

/-- A segment of a GraphQL response path: a field response key or a list
index (JS `string | number`). -/
inductive PathSeg where
  | str (s : String)
  | idx (n : Nat)
  deriving DecidableEq

/-- A partial-execution error as manipulated by `createFieldResolver`:
the code only ever reads and rewrites `message`, `locations` and `path`,
so `locations` is kept opaque. `path : Option _` models that a
`GraphQLFormattedError` may lack a `path` property. -/
structure ErrInfo where
  message : String
  locations : Option Nat
  path : Option (List PathSeg)
  deriving DecidableEq

/-- JavaScript runtime values, as far as the resolver code observes them.
`arr` and `obj` carry the list of errors attached under the
`ERROR_SYMBOL` property (an empty list models the property being absent;
the code never distinguishes the two: every read is guarded so that
`undefined` and `[]` behave identically). -/
inductive Value where
  | undefined
  | null
  | bool (b : Bool)
  | num (n : Int)
  | str (s : String)
  | arr (elems : List Value) (errs : List ErrInfo)
  | obj (props : List (String × Value)) (errs : List ErrInfo)

/-- JS truthiness of a `Value` (`Boolean(v)`). -/
def jsTruthy : Value → Bool
  | .undefined => false
  | .null => false
  | .bool b => b
  | .num n => decide (n ≠ 0)
  | .str s => decide (s ≠ "")
  | .arr _ _ => true
  | .obj _ _ => true

/-- First-match lookup in an association list (JS object property read;
keys are unique in every object the code builds, so first-match is exact). -/
def getProp {α : Type} : List (String × α) → String → Option α
  | [], _ => none
  | (k', v) :: rest, k => if k' = k then some v else getProp rest k

/-- JS property read `v[k]` for the values the resolver reads properties
from. Reads on primitives yield `undefined`; reads on `null`/`undefined`
would throw in JS and are guarded at every call site in the source. -/
def jsGet (v : Value) (k : String) : Value :=
  match v with
  | .obj props _ => (getProp props k).getD .undefined
  | _ => .undefined

/-- The list attached under `ERROR_SYMBOL` (`v[ERROR_SYMBOL]`), empty when
absent. -/
def errsOf : Value → List ErrInfo
  | .obj _ errs => errs
  | .arr _ errs => errs
  | _ => []

/-- JS object assignment `o[k] = v`: overwrites in place when the key
exists (keeping its insertion position), otherwise appends. -/
def jsInsert {α : Type} : List (String × α) → String → α → List (String × α)
  | [], k, v => [(k, v)]
  | (k', v') :: rest, k, v =>
    if k' = k then (k', v) :: rest else (k', v') :: jsInsert rest k v

/-- `if (!o[k]) o[k] = v` for object-valued entries: insert only when the
key is absent (the pattern used for field maps and interface maps). -/
def insertIfAbsent {α : Type} : List (String × α) → String → α → List (String × α)
  | [], k, v => [(k, v)]
  | (k', v') :: rest, k, v =>
    if k' = k then (k', v') :: rest else (k', v') :: insertIfAbsent rest k v

/-- `if (!o[k]) o[k] = []; o[k].push(v)` — the bucket-building pattern of
`createRootFieldMapConfig`. -/
def pushBucket {α : Type} : List (String × List α) → String → α → List (String × List α)
  | [], k, v => [(k, [v])]
  | (k', vs) :: rest, k, v =>
    if k' = k then (k', vs ++ [v]) :: rest else (k', vs) :: pushBucket rest k v

/-!
### lodash `camelCase`

`mergeObjectTypes` computes the entry-point query name as
`camelCase(types[0].type.name)` using lodash. The model below follows
lodash 4.x: remove apostrophes, split into words (`unicodeWords` when the
string matches `reHasUnicodeWord`, else `asciiWords`), lowercase the first
word, lowercase-then-capitalize the rest. It is faithful for ASCII input,
which covers every GraphQL type name (`/[_A-Za-z][_0-9A-Za-z]*/`); the
`deburr` step is the identity there, and the Unicode-only character
classes in lodash's regexes match nothing in that alphabet.
-/

/-- A character the `reAsciiWord` regex keeps: anything outside
`\x00-\x2f`, `\x3a-\x40`, `\x5b-\x60`, `\x7b-\x7f`. -/
def asciiWordChar (c : Char) : Bool :=
  !(decide (c.toNat ≤ 0x2f) || (decide (0x3a ≤ c.toNat) && decide (c.toNat ≤ 0x40)) ||
    (decide (0x5b ≤ c.toNat) && decide (c.toNat ≤ 0x60)) ||
    (decide (0x7b ≤ c.toNat) && decide (c.toNat ≤ 0x7f)))

/-- Maximal runs of characters satisfying `p` (the global match of
`/[...]+/g`). -/
def splitRuns (p : Char → Bool) : List Char → List (List Char)
  | [] => []
  | c :: rest =>
    let ws := splitRuns p rest
    if p c then
      match rest with
      | r :: _ =>
        if p r then
          match ws with
          | w :: ws2 => (c :: w) :: ws2
          | [] => [[c]]
        else [c] :: ws
      | [] => [[c]]
    else ws

/-- The two- and three-character patterns of lodash's `reHasUnicodeWord`:
`[a-z][A-Z]`, `[0-9][a-zA-Z]`, `[a-zA-Z][0-9]`, `[A-Z]{2}[a-z]`. -/
def uwPairs : List Char → Bool
  | a :: b :: rest =>
    (a.isLower && b.isUpper) || (a.isDigit && b.isAlpha) || (a.isAlpha && b.isDigit) ||
    (a.isUpper && b.isUpper && (match rest with | c :: _ => c.isLower | [] => false)) ||
    uwPairs (b :: rest)
  | _ => false

/-- lodash `hasUnicodeWord`: the string matches
`/[a-z][A-Z]|[A-Z]{2}[a-z]|[0-9][a-zA-Z]|[a-zA-Z][0-9]|[^a-zA-Z0-9 ]/`. -/
def hasUnicodeWord (cs : List Char) : Bool :=
  cs.any (fun c => !(c.isAlpha || c.isDigit || decide (c = ' '))) || uwPairs cs

/-- A word-break character of `rsBreak`, restricted to ASCII: every
non-alphanumeric ASCII character falls in lodash's break ranges. -/
def isBreakChar (c : Char) : Bool := !(c.isAlpha || c.isDigit)

/-- Lookahead of `unicodeWords` alternative 1: `(?=break|[A-Z]|$)`. -/
def la1 : List Char → Bool
  | [] => true
  | c :: _ => isBreakChar c || c.isUpper

/-- Lookahead of `unicodeWords` alternative 2: `(?=break|[A-Z][a-z]|$)`. -/
def la2 : List Char → Bool
  | [] => true
  | c :: rest =>
    isBreakChar c || (c.isUpper && (match rest with | d :: _ => d.isLower | [] => false))

/-- Split a list into its maximal prefix satisfying `p` and the rest. -/
def splitWhile (p : Char → Bool) : List Char → List Char × List Char
  | [] => ([], [])
  | c :: rest =>
    if p c then
      let (a, b) := splitWhile p rest
      (c :: a, b)
    else ([], c :: rest)

/-- `unicodeWords` alternative 1: `[A-Z]?[a-z]+` with lookahead `la1`.
The `[a-z]+` run is maximal: shortening it would put a lowercase letter
in lookahead position, which `la1` rejects, so no backtracking helps. -/
def uwAltOne : List Char → Option (List Char × List Char)
  | [] => none
  | c :: rest =>
    if c.isUpper then
      match splitWhile Char.isLower rest with
      | ([], _) => none
      | (ls, rest2) => if la1 rest2 then some (c :: ls, rest2) else none
    else
      match splitWhile Char.isLower (c :: rest) with
      | ([], _) => none
      | (ls, rest2) => if la1 rest2 then some (ls, rest2) else none

/-- Greedy-with-backtracking `[A-Z]+` against lookahead `la2`: try the
full run, then peel trailing uppercase letters one at a time. The first
argument is the reversed candidate run. -/
def uwAltTwoTry : List Char → List Char → Option (List Char × List Char)
  | [], _ => none
  | x :: xsRev, rest =>
    if la2 rest then some ((x :: xsRev).reverse, rest)
    else uwAltTwoTry xsRev (x :: rest)

/-- `unicodeWords` alternative 2: `[A-Z]+` with lookahead `la2`. -/
def uwAltTwo (cs : List Char) : Option (List Char × List Char) :=
  match splitWhile Char.isUpper cs with
  | ([], _) => none
  | (us, rest) => uwAltTwoTry us.reverse rest

/-- `unicodeWords` alternative 3: `[A-Z]?[a-z]+`, no lookahead. -/
def uwAltThree : List Char → Option (List Char × List Char)
  | [] => none
  | c :: rest =>
    if c.isUpper then
      match splitWhile Char.isLower rest with
      | ([], _) => none
      | (ls, rest2) => some (c :: ls, rest2)
    else
      match splitWhile Char.isLower (c :: rest) with
      | ([], _) => none
      | (ls, rest2) => some (ls, rest2)

/-- `unicodeWords` alternative 4: `[A-Z]+`, no lookahead. -/
def uwAltFour (cs : List Char) : Option (List Char × List Char) :=
  match splitWhile Char.isUpper cs with
  | ([], _) => none
  | (us, rest) => some (us, rest)

/-- Lookahead of `rsOrdUpper`, `(?=\b|[a-z_])`: fails only when the next
character is an uppercase letter or a digit. -/
def laOrdU : List Char → Bool
  | [] => true
  | c :: _ => !(c.isUpper || c.isDigit)

/-- Lookahead of `rsOrdLower`, `(?=\b|[A-Z_])`: fails only when the next
character is a lowercase letter or a digit. -/
def laOrdL : List Char → Bool
  | [] => true
  | c :: _ => !(c.isLower || c.isDigit)

/-- Core of `rsOrdUpper`: `(?:1ST|2ND|3RD|(?![123])\dTH)` plus its
lookahead. -/
def ordCoreU : List Char → Option (List Char × List Char)
  | '1' :: 'S' :: 'T' :: r => if laOrdU r then some (['1', 'S', 'T'], r) else none
  | '2' :: 'N' :: 'D' :: r => if laOrdU r then some (['2', 'N', 'D'], r) else none
  | '3' :: 'R' :: 'D' :: r => if laOrdU r then some (['3', 'R', 'D'], r) else none
  | d :: 'T' :: 'H' :: r =>
    if d.isDigit && !(decide (d = '1') || decide (d = '2') || decide (d = '3')) && laOrdU r
    then some ([d, 'T', 'H'], r) else none
  | _ => none

/-- Core of `rsOrdLower`: `(?:1st|2nd|3rd|(?![123])\dth)` plus its
lookahead. -/
def ordCoreL : List Char → Option (List Char × List Char)
  | '1' :: 's' :: 't' :: r => if laOrdL r then some (['1', 's', 't'], r) else none
  | '2' :: 'n' :: 'd' :: r => if laOrdL r then some (['2', 'n', 'd'], r) else none
  | '3' :: 'r' :: 'd' :: r => if laOrdL r then some (['3', 'r', 'd'], r) else none
  | d :: 't' :: 'h' :: r =>
    if d.isDigit && !(decide (d = '1') || decide (d = '2') || decide (d = '3')) && laOrdL r
    then some ([d, 't', 'h'], r) else none
  | _ => none

/-- Greedy-with-backtracking `\d*` before an ordinal core: try consuming
the full digit run, then hand digits back one at a time. The first
argument is the reversed run of consumed digits. -/
def ordScanRev (tryCore : List Char → Option (List Char × List Char)) :
    List Char → List Char → Option (List Char × List Char)
  | [], rest => tryCore rest
  | d :: dsRev, rest =>
    match tryCore rest with
    | some (m, r) => some ((d :: dsRev).reverse ++ m, r)
    | none => ordScanRev tryCore dsRev (d :: rest)

/-- `unicodeWords` alternative 5 (`rsOrdUpper`). -/
def uwAltOrdU (cs : List Char) : Option (List Char × List Char) :=
  match splitWhile Char.isDigit cs with
  | (ds, rest) => ordScanRev ordCoreU ds.reverse rest

/-- `unicodeWords` alternative 6 (`rsOrdLower`). -/
def uwAltOrdL (cs : List Char) : Option (List Char × List Char) :=
  match splitWhile Char.isDigit cs with
  | (ds, rest) => ordScanRev ordCoreL ds.reverse rest

/-- `unicodeWords` alternative 7 (`rsDigits`): `\d+`. -/
def uwAltDigits (cs : List Char) : Option (List Char × List Char) :=
  match splitWhile Char.isDigit cs with
  | ([], _) => none
  | (ds, rest) => some (ds, rest)

/-- One attempt of the `reUnicodeWord` alternation at the current
position, in lodash's alternative order (the emoji alternative matches
nothing in ASCII). -/
def uwTryMatch (cs : List Char) : Option (List Char × List Char) :=
  (uwAltOne cs).orElse fun _ =>
  (uwAltTwo cs).orElse fun _ =>
  (uwAltThree cs).orElse fun _ =>
  (uwAltFour cs).orElse fun _ =>
  (uwAltOrdU cs).orElse fun _ =>
  (uwAltOrdL cs).orElse fun _ =>
  uwAltDigits cs

/-- The global scan of `reUnicodeWord`: find the leftmost match, emit it,
continue after it. Fueled by the input length, which suffices because a
successful match always consumes at least one character. -/
def uwScanAux : Nat → List Char → List (List Char)
  | 0, _ => []
  | _, [] => []
  | fuel + 1, c :: rest =>
    match uwTryMatch (c :: rest) with
    | some (w, rest2) => w :: uwScanAux fuel rest2
    | none => uwScanAux fuel rest

/-- lodash `unicodeWords`, restricted to ASCII input. -/
def unicodeWords (cs : List Char) : List (List Char) := uwScanAux cs.length cs

/-- lodash `words` with no pattern argument. -/
def wordsOf (cs : List Char) : List (List Char) :=
  if hasUnicodeWord cs then unicodeWords cs else splitRuns asciiWordChar cs

/-- `word.toLowerCase()`. -/
def lowerWord (w : List Char) : List Char := w.map Char.toLower

/-- lodash `capitalize`: `upperFirst(word.toLowerCase())`. -/
def capitalizeWord (w : List Char) : List Char :=
  match lowerWord w with
  | [] => []
  | c :: rest => c.toUpper :: rest

/-- The `camelCase` compounder: lowercase the first word, capitalize the
rest, concatenate. -/
def camelJoin : List (List Char) → List Char
  | [] => []
  | w :: ws => lowerWord w ++ (ws.map capitalizeWord).flatten

/-- lodash `camelCase` (ASCII): `deburr` is the identity, apostrophes
(`'` and `’`) are removed, then the words are compounded. -/
def camelCase (s : String) : String :=
  let cs := s.data.filter fun c => !(decide (c = Char.ofNat 39) || decide (c = Char.ofNat 0x2019))
  String.mk (camelJoin (wordsOf cs))

/-- Spec-side definition, from the specification's words: "the
lowercase-first-letter form of the type's name (e.g. `Foo` → `foo`)" —
lowercase the first character, keep the rest unchanged. Kept separate
from `camelCase` so the two can be compared. -/
def lowerFirst (s : String) : String :=
  match s.data with
  | [] => ""
  | c :: rest => String.mk (c.toLower :: rest)

/-!
### The GraphQL data model, as read by the merge code

Only the attributes the source reads are modelled. Opaque payloads the
code copies without inspecting (AST nodes, `isTypeOf`, `resolveType`,
original resolver functions, argument default values) are represented by
identifying numbers (`Option Nat`: `none` is JS `undefined`).
-/

/-- A type reference: `Named | List(inner) | NonNull(inner)`. -/
inductive TypeRef where
  | named (name : String)
  | list (ofType : TypeRef)
  | nonNull (ofType : TypeRef)
  deriving DecidableEq

/-- `getNamedType`: unwrap `List`/`NonNull` down to the base name. -/
def getNamedTypeName : TypeRef → String
  | .named n => n
  | .list t => getNamedTypeName t
  | .nonNull t => getNamedTypeName t

/-- The result of the pervasive source pattern
`newTypes[getNamedType(t).name] ? createFieldType(t, newTypes) : t`
(and its `createInputFieldType` twin). `createFieldType` rebuilds the
`List`/`NonNull` wrappers over `newTypes[name]`, so the rewritten
reference has the same shape and base name as the input; `repointed`
records whether the base now denotes the freshly merged type rather than
the stale pre-merge one. -/
structure RewrittenRef where
  ref : TypeRef
  repointed : Bool
  deriving DecidableEq

/-- Apply the pattern above against the set of merged names (the keys of
`newTypes`). -/
def rewriteRef (nameSet : List String) (t : TypeRef) : RewrittenRef :=
  { ref := t, repointed := nameSet.contains (getNamedTypeName t) }

/-- `GraphQLArgument`, as read by `createArgumentConfig`. -/
structure ArgDef where
  name : String
  type : TypeRef
  defaultValue : Option Nat
  description : Option String
  astNode : Option Nat
  deriving DecidableEq

/-- `GraphQLField`, as read by the field-map builders. `resolve` is the
field's original resolution strategy, opaque to the merge code. -/
structure FieldDef where
  type : TypeRef
  args : List ArgDef
  resolve : Option Nat
  deprecationReason : Option String
  description : Option String
  astNode : Option Nat
  deriving DecidableEq

/-- `GraphQLObjectType`: name, metadata, insertion-ordered field map
(`Object.entries(type.getFields())`), and declared interface names. -/
structure ObjectTypeDef where
  name : String
  description : Option String
  isTypeOf : Option Nat
  astNode : Option Nat
  extensionASTNodes : Option Nat
  fields : List (String × FieldDef)
  interfaces : List String
  deriving DecidableEq

/-- A GraphQL literal AST node (`ValueNode`), as far as the module's
`parseLiteral` inspects it. Numeric literals keep their source text. -/
inductive ValueNode where
  | strNode (value : String)
  | boolNode (value : Bool)
  | intNode (value : String)
  | floatNode (value : String)
  | objNode (fields : List (String × ValueNode))
  | listNode (values : List ValueNode)
  | enumNode (value : String)
  | nullNode

/-- The values produced and transported by scalar serialization. JS
numbers produced by `parseFloat` are represented by the literal text they
were parsed from; no claim depends on numeric semantics. -/
inductive LitValue where
  | str (s : String)
  | bool (b : Bool)
  | num (repr : String)
  | obj (fields : List (String × LitValue))
  | list (values : List LitValue)
  | null

mutual

/-- The module-level `parseLiteral` helper: strings/booleans pass
through, int/float literals go through `parseFloat`, objects and lists
recurse, everything else (enum, null, variables) yields `null`. -/
def parseLiteral : ValueNode → LitValue
  | .strNode s => .str s
  | .boolNode b => .bool b
  | .intNode s => .num s
  | .floatNode s => .num s
  | .objNode fields => .obj (parseLiteralFields fields)
  | .listNode values => .list (parseLiteralList values)
  | .enumNode _ => .null
  | .nullNode => .null

/-- `for (const field of ast.fields) value[field.name.value] = parseLiteral(field.value)`. -/
def parseLiteralFields : List (String × ValueNode) → List (String × LitValue)
  | [] => []
  | (k, v) :: rest => (k, parseLiteral v) :: parseLiteralFields rest

/-- `ast.values.map(parseLiteral)`. -/
def parseLiteralList : List ValueNode → List LitValue
  | [] => []
  | v :: rest => parseLiteral v :: parseLiteralList rest

end

/-- `GraphQLScalarType`: metadata plus the three behavior functions. -/
structure ScalarType where
  name : String
  description : Option String
  astNode : Option Nat
  serialize : LitValue → LitValue
  parseValue : LitValue → LitValue
  parseLiteralFn : ValueNode → LitValue

/-- `GraphQLInterfaceType`, as read by `recreateInterfaceType`. -/
structure InterfaceTypeDef where
  name : String
  description : Option String
  astNode : Option Nat
  extensionASTNodes : Option Nat
  fields : List (String × FieldDef)
  deriving DecidableEq

/-- `GraphQLUnionType`, as read by `recreateUnionType`: member type
names plus the opaque `resolveType`. -/
structure UnionTypeDef where
  name : String
  description : Option String
  astNode : Option Nat
  extensionASTNodes : Option Nat
  types : List String
  resolveType : Option Nat
  deriving DecidableEq

/-- `GraphQLInputField`, as read by `inputFieldMapToFieldConfigMap`. -/
structure InputFieldDef where
  type : TypeRef
  defaultValue : Option Nat
  description : Option String
  astNode : Option Nat
  deriving DecidableEq

/-- `GraphQLInputObjectType`, as read by `recreateInputType`. -/
structure InputTypeDef where
  name : String
  description : Option String
  astNode : Option Nat
  fields : List (String × InputFieldDef)
  deriving DecidableEq

/-- An enum (or any other named type the code neither merges nor
recreates: it is carried over as-is by the final `else` branch). -/
structure EnumTypeDef where
  name : String
  deriving DecidableEq

/-- A named type in a schema's type map. -/
inductive NamedTypeDef where
  | objectT (o : ObjectTypeDef)
  | interfaceT (i : InterfaceTypeDef)
  | unionT (u : UnionTypeDef)
  | scalarT (s : ScalarType)
  | enumT (e : EnumTypeDef)
  | inputT (i : InputTypeDef)

/-- The type's name. -/
def typeNameOf : NamedTypeDef → String
  | .objectT o => o.name
  | .interfaceT i => i.name
  | .unionT u => u.name
  | .scalarT s => s.name
  | .enumT e => e.name
  | .inputT i => i.name

/-- `isObjectType`. -/
def isObjectType : NamedTypeDef → Bool
  | .objectT _ => true
  | _ => false

/-- `isScalarType`. -/
def isScalarType : NamedTypeDef → Bool
  | .scalarT _ => true
  | _ => false

/-- `isSpecifiedScalarType` (graphql-js compares by name against the
five built-in scalars). -/
def isSpecifiedScalarType (t : NamedTypeDef) : Bool :=
  isScalarType t &&
    (decide (typeNameOf t = "Int") || decide (typeNameOf t = "Float") ||
     decide (typeNameOf t = "String") || decide (typeNameOf t = "Boolean") ||
     decide (typeNameOf t = "ID"))

/-- `isTypeToInclude`: drop the three root-type names, introspection
types (`__` prefix) and specified scalars. -/
def isTypeToInclude (t : NamedTypeDef) : Bool :=
  decide (typeNameOf t ≠ "Query") && decide (typeNameOf t ≠ "Mutation") &&
  decide (typeNameOf t ≠ "Subscription") &&
  decide ((typeNameOf t).take 2 ≠ "__") &&
  (!isScalarType t || (isScalarType t && !isSpecifiedScalarType t))

/-- `GraphQLSchema` as consumed by the merge: an identity (`sid`, object
identity of the schema handle, used to bind delegation), the three
optional root types, and the type map. -/
structure Schema where
  sid : Nat
  queryType : Option ObjectTypeDef
  mutationType : Option ObjectTypeDef
  subscriptionType : Option ObjectTypeDef
  typeMap : List (String × NamedTypeDef)

/-- An entry of the `typeNameToTypes` index: `{schema, type, replaceResolvers}`. -/
structure Candidate where
  schema : Nat
  type : NamedTypeDef
  replaceResolvers : Bool

/-- An element of `ObjectTypeAndSchemaArray` (candidates already known
to be Object types). -/
structure ObjCand where
  schema : Nat
  type : ObjectTypeDef
  replaceResolvers : Bool
  deriving DecidableEq

/-- A `{schema, type}` pair for a root type. -/
structure RootCand where
  schema : Nat
  type : ObjectTypeDef
  deriving DecidableEq

/-!
### Field-config construction

In the source, `fields: () => ...` thunks are only forced when
`new GraphQLSchema` collects the final type map — after the merge loop
has fully populated `newTypes`. The pure model therefore builds every
field configuration with the final name set (`nameSet`, the keys of
`newTypes`); only membership and the (shared) names matter, see
`RewrittenRef`.
-/

/-- JS truthiness of `string | undefined` (empty strings are falsy). -/
def oStrTruthy : Option String → Bool
  | none => false
  | some s => decide (s ≠ "")

/-- `getCandidateAttribute`: the source maps candidates to one attribute,
filters truthy values and takes the first; callers here pass the mapped
attribute list together with the attribute's JS truthiness. -/
def getCandidateAttribute {α : Type} (attributes : List α) (truthy : α → Bool) : Option α :=
  (attributes.filter truthy).head?

/-- How a merged field resolves. `rootDelegate s` is the closure made by
`createRootResolver({schema: s})`; `fieldDelegate s q` is the closure made
by `createFieldResolver(s, q)`; `original r` keeps the source field's own
`resolve` (`r` opaque). -/
inductive ResolveStrategy where
  | rootDelegate (schema : Nat)
  | fieldDelegate (schema : Nat) (mergeQuery : Option String)
  | original (resolve : Option Nat)
  deriving DecidableEq

/-- An entry of `GraphQLFieldConfigArgumentMap`. -/
structure ArgConfigOut where
  type : RewrittenRef
  defaultValue : Option Nat
  description : Option String
  astNode : Option Nat
  deriving DecidableEq

/-- `createArgumentConfig`: rebuild the argument map, re-pointing each
argument type through the merged-type table. -/
def createArgumentConfig (args : List ArgDef) (nameSet : List String) :
    List (String × ArgConfigOut) :=
  args.foldl (fun acc arg =>
    jsInsert acc arg.name
      { type := rewriteRef nameSet arg.type
        defaultValue := arg.defaultValue
        description := arg.description
        astNode := arg.astNode }) []

/-- An entry of the produced `GraphQLFieldConfigMap`. -/
structure FieldConfigOut where
  type : RewrittenRef
  args : List (String × ArgConfigOut)
  resolve : ResolveStrategy
  deprecationReason : Option String
  description : Option String
  astNode : Option Nat
  deriving DecidableEq

/-- The `{schema, field, replaceResolvers}` record stored per field name
by `createFieldMapConfig`. -/
structure FieldWinner where
  schema : Nat
  field : FieldDef
  replaceResolvers : Bool
  deriving DecidableEq

/-- Inner loop of `createFieldMapConfig`'s collection phase:
`if (!fields[key]) fields[key] = {schema, field, replaceResolvers}` for
every field of one candidate type. -/
def insertFieldsOf (t : ObjCand) :
    List (String × FieldDef) → List (String × FieldWinner) → List (String × FieldWinner)
  | [], acc => acc
  | kv :: rest, acc =>
    insertFieldsOf t rest
      (insertIfAbsent acc kv.1
        { schema := t.schema, field := kv.2, replaceResolvers := t.replaceResolvers })

/-- Outer loop of the collection phase, over the candidates in order. -/
def collectObjectFieldsAux : List ObjCand → List (String × FieldWinner) → List (String × FieldWinner)
  | [], acc => acc
  | t :: ts, acc => collectObjectFieldsAux ts (insertFieldsOf t t.type.fields acc)

/-- The `fields` object built by `createFieldMapConfig`: per field name,
the record from the first candidate (in order) declaring that name. -/
def collectObjectFields (types : List ObjCand) : List (String × FieldWinner) :=
  collectObjectFieldsAux types []

/-- The per-field body of `createFieldMapConfig`'s second loop: every
attribute comes from the stored winner; the resolver is replaced by a
field-delegation resolver unless the winner's schema keeps its resolvers
(the local schema). -/
def nonRootFieldConfig (nameSet : List String) (mergeQuery : String) (w : FieldWinner) :
    FieldConfigOut :=
  { type := rewriteRef nameSet w.field.type
    args := createArgumentConfig w.field.args nameSet
    resolve :=
      if w.replaceResolvers then .fieldDelegate w.schema (some mergeQuery)
      else .original w.field.resolve
    deprecationReason := w.field.deprecationReason
    description := w.field.description
    astNode := w.field.astNode }

/-- `createFieldMapConfig`. -/
def createFieldMapConfig (types : List ObjCand) (nameSet : List String) (mergeQuery : String) :
    List (String × FieldConfigOut) :=
  (collectObjectFields types).map fun kv => (kv.1, nonRootFieldConfig nameSet mergeQuery kv.2)

/-- Inner loop of `mergeInterfaces`: `if (!interfaceMap[i.name])
interfaceMap[i.name] = newTypes[i.name] ? newTypes[i.name] : i`. As with
`RewrittenRef`, the value is the interface's name plus whether it was
re-pointed at the merged table. -/
def insertInterfaces (nameSet : List String) :
    List String → List (String × Bool) → List (String × Bool)
  | [], acc => acc
  | i :: rest, acc => insertInterfaces nameSet rest (insertIfAbsent acc i (nameSet.contains i))

/-- `mergeInterfaces`: union (by name) of every candidate's interfaces,
first occurrence fixing the position. The returned pairs are
`Object.values(interfaceMap)` with the key kept alongside (it always
equals the interface's name). -/
def mergeInterfaces (types : List ObjectTypeDef) (nameSet : List String) :
    List (String × Bool) :=
  types.foldl (fun acc t => insertInterfaces nameSet t.interfaces acc) []

/-- The first line of `mergeObjectTypes`:
`const mergeQuery = camelCase(types[0].type.name)`. -/
def mergeQueryFor (types : List ObjCand) : String :=
  camelCase ((types.head?.map fun t => t.type.name).getD "")

/-- The merged `GraphQLObjectType`, observable shape. -/
structure ObjectTypeOut where
  name : Option String
  description : Option String
  isTypeOf : Option Nat
  astNode : Option Nat
  extensionASTNodes : Option Nat
  fields : List (String × FieldConfigOut)
  interfaces : List (String × Bool)
  deriving DecidableEq

/-- `mergeObjectTypes`. -/
def mergeObjectTypes (types : List ObjCand) (nameSet : List String) : ObjectTypeOut :=
  let mergeQuery := mergeQueryFor types
  { name := getCandidateAttribute (types.map fun t => t.type.name) fun n => decide (n ≠ "")
    description := (getCandidateAttribute (types.map fun t => t.type.description) oStrTruthy).join
    isTypeOf := (getCandidateAttribute (types.map fun t => t.type.isTypeOf) Option.isSome).join
    astNode := (getCandidateAttribute (types.map fun t => t.type.astNode) Option.isSome).join
    extensionASTNodes :=
      (getCandidateAttribute (types.map fun t => t.type.extensionASTNodes) Option.isSome).join
    fields := createFieldMapConfig types nameSet mergeQuery
    interfaces := mergeInterfaces (types.map fun t => t.type) nameSet }

/-!
### Root-type merging
-/

/-- Inner loop of `createRootFieldMapConfig`'s collection phase: push
`{schema, field}` onto the bucket for each field name (all candidates are
kept, unlike the non-root collection). -/
def pushRootFields (t : RootCand) :
    List (String × FieldDef) → List (String × List (Nat × FieldDef)) →
    List (String × List (Nat × FieldDef))
  | [], acc => acc
  | kv :: rest, acc => pushRootFields t rest (pushBucket acc kv.1 (t.schema, kv.2))

/-- Outer loop of the root collection phase. -/
def collectRootFieldsAux :
    List RootCand → List (String × List (Nat × FieldDef)) →
    List (String × List (Nat × FieldDef))
  | [], acc => acc
  | t :: ts, acc => collectRootFieldsAux ts (pushRootFields t t.type.fields acc)

/-- The `fields` buckets of `createRootFieldMapConfig`. -/
def collectRootFields (types : List RootCand) : List (String × List (Nat × FieldDef)) :=
  collectRootFieldsAux types []

/-- The per-field body of `createRootFieldMapConfig`'s second loop: each
attribute is the first truthy one among the candidates (in order), the
resolver delegates to `schemas[0]` — the first schema declaring the
field. The buckets are non-empty by construction; the `getD` defaults are
never reached (in JS an empty bucket would crash at `getNamedType`). -/
def rootFieldConfig (nameSet : List String) (bucket : List (Nat × FieldDef)) : FieldConfigOut :=
  let fieldCandidates := bucket.map Prod.snd
  let schemas := bucket.map Prod.fst
  { type :=
      ((getCandidateAttribute (fieldCandidates.map fun f => f.type) fun _ => true).map
        (rewriteRef nameSet)).getD { ref := .named "", repointed := false }
    args :=
      createArgumentConfig
        ((getCandidateAttribute (fieldCandidates.map fun f => f.args) fun _ => true).getD [])
        nameSet
    resolve := .rootDelegate (schemas.head?.getD 0)
    deprecationReason :=
      (getCandidateAttribute (fieldCandidates.map fun f => f.deprecationReason) oStrTruthy).join
    description :=
      (getCandidateAttribute (fieldCandidates.map fun f => f.description) oStrTruthy).join
    astNode :=
      (getCandidateAttribute (fieldCandidates.map fun f => f.astNode) Option.isSome).join }

/-- `createRootFieldMapConfig`. -/
def createRootFieldMapConfig (types : List RootCand) (nameSet : List String) :
    List (String × FieldConfigOut) :=
  (collectRootFields types).map fun kv => (kv.1, rootFieldConfig nameSet kv.2)

/-- The merged root type, observable shape. -/
structure RootTypeOut where
  name : Option String
  description : Option String
  astNode : Option Nat
  fields : List (String × FieldConfigOut)
  deriving DecidableEq

/-- `mergeRootTypes`: `undefined` when no source defines this root kind. -/
def mergeRootTypes (types : List RootCand) (nameSet : List String) : Option RootTypeOut :=
  match types with
  | [] => none
  | _ :: _ =>
    some
      { name := getCandidateAttribute (types.map fun t => t.type.name) fun n => decide (n ≠ "")
        description :=
          (getCandidateAttribute (types.map fun t => t.type.description) oStrTruthy).join
        astNode := (getCandidateAttribute (types.map fun t => t.type.astNode) Option.isSome).join
        fields := createRootFieldMapConfig types nameSet }

/-!
### Non-object recreation
-/

/-- The recreated `GraphQLUnionType`, observable shape. -/
structure UnionTypeOut where
  name : String
  description : Option String
  astNode : Option Nat
  extensionASTNodes : Option Nat
  types : List (String × Bool)
  resolveType : Option Nat
  deriving DecidableEq

/-- `recreateUnionType`: `types: () => type.getTypes().map(t => newTypes[t.name] || t)`. -/
def recreateUnionType (t : UnionTypeDef) (nameSet : List String) : UnionTypeOut :=
  { name := t.name
    description := t.description
    astNode := t.astNode
    extensionASTNodes := t.extensionASTNodes
    types := t.types.map fun n => (n, nameSet.contains n)
    resolveType := t.resolveType }

/-- `recreateScalarType`: copy the descriptive metadata, but install
`serialize(value) { return value }` and `parseValue(value) { return value }`
— identity functions, not the original behaviors — and the module's
generic `parseLiteral`. -/
def recreateScalarType (t : ScalarType) : ScalarType :=
  { name := t.name
    description := t.description
    astNode := t.astNode
    serialize := fun value => value
    parseValue := fun value => value
    parseLiteralFn := fun ast => parseLiteral ast }

/-- An entry of the recreated interface's field-config map (no resolver). -/
structure InterfaceFieldConfigOut where
  type : RewrittenRef
  args : List (String × ArgConfigOut)
  deprecationReason : Option String
  description : Option String
  astNode : Option Nat
  deriving DecidableEq

/-- `recreateInterfaceFieldMap` (keys are unique in a field map, so a
plain map preserves the loop's assignments and order). -/
def recreateInterfaceFieldMap (fields : List (String × FieldDef)) (nameSet : List String) :
    List (String × InterfaceFieldConfigOut) :=
  fields.map fun kv =>
    (kv.1,
      { type := rewriteRef nameSet kv.2.type
        args := createArgumentConfig kv.2.args nameSet
        deprecationReason := kv.2.deprecationReason
        description := kv.2.description
        astNode := kv.2.astNode })

/-- The recreated `GraphQLInterfaceType`, observable shape. -/
structure InterfaceTypeOut where
  name : String
  description : Option String
  astNode : Option Nat
  extensionASTNodes : Option Nat
  fields : List (String × InterfaceFieldConfigOut)
  deriving DecidableEq

/-- `recreateInterfaceType`. -/
def recreateInterfaceType (t : InterfaceTypeDef) (nameSet : List String) : InterfaceTypeOut :=
  { name := t.name
    description := t.description
    astNode := t.astNode
    extensionASTNodes := t.extensionASTNodes
    fields := recreateInterfaceFieldMap t.fields nameSet }

/-- An entry of the recreated input type's field-config map. -/
structure InputFieldConfigOut where
  type : RewrittenRef
  defaultValue : Option Nat
  description : Option String
  astNode : Option Nat
  deriving DecidableEq

/-- `inputFieldMapToFieldConfigMap`. -/
def inputFieldMapToFieldConfigMap (fields : List (String × InputFieldDef)) (nameSet : List String) :
    List (String × InputFieldConfigOut) :=
  fields.map fun kv =>
    (kv.1,
      { type := rewriteRef nameSet kv.2.type
        defaultValue := kv.2.defaultValue
        description := kv.2.description
        astNode := kv.2.astNode })

/-- The recreated `GraphQLInputObjectType`, observable shape. -/
structure InputTypeOut where
  name : String
  description : Option String
  astNode : Option Nat
  fields : List (String × InputFieldConfigOut)
  deriving DecidableEq

/-- `recreateInputType`. -/
def recreateInputType (t : InputTypeDef) (nameSet : List String) : InputTypeOut :=
  { name := t.name
    description := t.description
    astNode := t.astNode
    fields := inputFieldMapToFieldConfigMap t.fields nameSet }

/-!
### The orchestrator `mergeRemoteSchemas`
-/

/-- What the merge loop stores into `newTypes` for one name. Object
candidates stay pending because their field/interface thunks close over
`newTypes` and are only forced after the loop; the same holds for the
recreated types' thunks, so all are finalized against the full table. -/
inductive PendingEntry where
  | pendingObject (cands : List Candidate)
  | pendingUnion (u : UnionTypeDef)
  | pendingInterface (i : InterfaceTypeDef)
  | pendingScalar (s : ScalarType)
  | pendingInput (i : InputTypeDef)
  | pendingAsIs (t : NamedTypeDef)

/-- The TS cast `candidates as ObjectTypeAndSchemaArray` — exact in the
branch where every candidate was checked to be an Object type. -/
def objCandsOf (cands : List Candidate) : List ObjCand :=
  cands.filterMap fun c =>
    match c.type with
    | .objectT o => some { schema := c.schema, type := o, replaceResolvers := c.replaceResolvers }
    | _ => none

/-- The name under which a merged object type is registered
(`newTypes[newType.name] = newType`, where the constructed type's name is
`types.map(t => t.type.name).filter(n => n)[0]`). -/
def mergedObjectName (cands : List Candidate) : String :=
  (getCandidateAttribute (cands.map fun c => typeNameOf c.type) fun n => decide (n ≠ "")).getD ""

/-- One iteration of the merge loop over a name's candidate list: skip
when some candidate is filtered out, merge when all are objects, throw on
a mixed list, otherwise recreate from the first candidate. -/
def processEntry (newTypes : List (String × PendingEntry)) (cands : List Candidate) :
    Except String (List (String × PendingEntry)) :=
  if cands.all fun c => isTypeToInclude c.type then
    if cands.all fun c => isObjectType c.type then
      .ok (jsInsert newTypes (mergedObjectName cands) (.pendingObject cands))
    else if cands.any fun c => isObjectType c.type then
      .error ("Can\x27t merge non-Object type " ++
        ((cands.head?.map fun c => typeNameOf c.type).getD "") ++
        " with Object type of same name")
    else
      match cands.head? with
      | none => .ok newTypes
      | some c =>
        match c.type with
        | .unionT u => .ok (jsInsert newTypes u.name (.pendingUnion u))
        | .interfaceT i => .ok (jsInsert newTypes i.name (.pendingInterface i))
        | .scalarT s => .ok (jsInsert newTypes s.name (.pendingScalar s))
        | .inputT i => .ok (jsInsert newTypes i.name (.pendingInput i))
        | t => .ok (jsInsert newTypes (typeNameOf t) (.pendingAsIs t))
  else .ok newTypes

/-- Inner loop of the `typeNameToTypes` index construction: append a
candidate per type-map entry. -/
def addTypeEntries (sid : Nat) (rr : Bool) :
    List (String × NamedTypeDef) → List (String × List Candidate) →
    List (String × List Candidate)
  | [], acc => acc
  | kv :: rest, acc =>
    addTypeEntries sid rr rest
      (pushBucket acc kv.1 { schema := sid, type := kv.2, replaceResolvers := rr })

/-- Index the non-local schemas (`replaceResolvers: true`). -/
def buildIndexAux : List Schema → List (String × List Candidate) → List (String × List Candidate)
  | [], acc => acc
  | s :: ss, acc => buildIndexAux ss (addTypeEntries s.sid true s.typeMap acc)

/-- The full `typeNameToTypes` index: the local schema first (with
`replaceResolvers: false`), then the remaining schemas in input order. -/
def buildIndex (localSchema : Option Schema) (schemas : List Schema) :
    List (String × List Candidate) :=
  buildIndexAux schemas
    (match localSchema with
     | some l => addTypeEntries l.sid false l.typeMap []
     | none => [])

/-- The merge loop over `Object.values(typeNameToTypes)`: a thrown
type-kind conflict aborts everything. -/
def buildNewTypes :
    List (String × PendingEntry) → List (String × List Candidate) →
    Except String (List (String × PendingEntry))
  | acc, [] => .ok acc
  | acc, kv :: rest =>
    match processEntry acc kv.2 with
    | .error e => .error e
    | .ok acc2 => buildNewTypes acc2 rest

/-- A finished entry of the merged schema's type list. -/
inductive FinalType where
  | objectOut (o : ObjectTypeOut)
  | unionOut (u : UnionTypeOut)
  | interfaceOut (i : InterfaceTypeOut)
  | scalarOut (s : ScalarType)
  | inputOut (i : InputTypeOut)
  | asIs (t : NamedTypeDef)

/-- Force one pending entry against the final name table (the thunks of
the constructed types run after the loop, when `new GraphQLSchema`
collects its type map). -/
def finalizeEntry (nameSet : List String) : PendingEntry → FinalType
  | .pendingObject cands => .objectOut (mergeObjectTypes (objCandsOf cands) nameSet)
  | .pendingUnion u => .unionOut (recreateUnionType u nameSet)
  | .pendingInterface i => .interfaceOut (recreateInterfaceType i nameSet)
  | .pendingScalar s => .scalarOut (recreateScalarType s)
  | .pendingInput i => .inputOut (recreateInputType i nameSet)
  | .pendingAsIs t => .asIs t

/-- The merged schema. `subscription` mirrors the final
`new GraphQLSchema({ query, mutation, types })` call, which passes no
`subscription` key. -/
structure MergedSchema where
  query : Option RootTypeOut
  mutation : Option RootTypeOut
  subscription : Option RootTypeOut
  types : List FinalType

/-- `localSchema ? [localSchema, ...schemas] : schemas`. -/
def allSchemasOf (schemas : List Schema) (localSchema : Option Schema) : List Schema :=
  match localSchema with
  | some l => l :: schemas
  | none => schemas

/-- `mergeRemoteSchemas({schemas, localSchema})`. -/
def mergeRemoteSchemas (schemas : List Schema) (localSchema : Option Schema) :
    Except String MergedSchema :=
  let allSchemas := allSchemasOf schemas localSchema
  let queryTypes := allSchemas.filterMap fun s => s.queryType.map fun t => RootCand.mk s.sid t
  let mutationTypes :=
    allSchemas.filterMap fun s => s.mutationType.map fun t => RootCand.mk s.sid t
  match buildNewTypes [] (buildIndex localSchema schemas) with
  | .error e => .error e
  | .ok newTypes =>
    let nameSet := newTypes.map Prod.fst
    .ok
      { query := mergeRootTypes queryTypes nameSet
        mutation := mergeRootTypes mutationTypes nameSet
        subscription := none
        types := newTypes.map fun kv => finalizeEntry nameSet kv.2 }

/-!
### The runtime resolvers

`delegateToSchema` is external; the resolvers are modelled as returning a
`ResolverOutcome` that records either a produced value, a thrown error,
or the exact delegation call made. For the entry-point (`mergeQuery`)
path, the resolver chains `.then(unwrapMergeResult responseKey ·)` onto
the pending request: `delegateThen req rk` means "the eventual value is
`unwrapMergeResult rk result` for the delegated `result`".
-/

/-- A field AST node, as far as the resolver reads and builds them:
optional alias, name, optional selection set. The synthesized wrapper
node carries exactly these keys. -/
inductive FieldNode where
  | mk (aliasName : Option String) (name : String) (selectionSet : Option (List FieldNode))

/-- The parts of `GraphQLResolveInfo` the code touches. `operation` is
`info.operation.operation`. The engine guarantees `fieldNodes` is
non-empty. -/
structure ResolveInfo where
  fieldNodes : List FieldNode
  fieldName : String
  operation : String

/-- One call to `delegateToSchema`, capturing every argument passed. -/
structure DelegationRequest where
  schema : Nat
  operation : String
  fieldName : String
  args : Value
  context : Nat
  info : ResolveInfo

/-- What a resolver invocation does. -/
inductive ResolverOutcome where
  | value (v : Value)
  | thrown (message : String)
  | crash
  | delegate (req : DelegationRequest)
  | delegateThen (req : DelegationRequest) (responseKey : String)

/-- `createRootResolver({schema})` applied to `(parent, args, context,
info)`: delegate the incoming operation as-is — same operation kind,
field name, arguments, context and info — and return that schema's
(pending) result unchanged. -/
def createRootResolver (schema : Nat) (_parent : Value) (args : Value) (context : Nat)
    (info : ResolveInfo) : DelegationRequest :=
  { schema := schema
    operation := info.operation
    fieldName := info.fieldName
    args := args
    context := context
    info := info }

/-- The response key: `info.fieldNodes[0].alias ? alias.value : info.fieldName`. -/
def responseKeyOf (info : ResolveInfo) : String :=
  match info.fieldNodes with
  | .mk (some a) _ _ :: _ => if a = "" then info.fieldName else a
  | .mk none _ _ :: _ => info.fieldName
  | [] => info.fieldName

/-- JS truthiness of the optional `mergeQuery` string. -/
def strTruthy : Option String → Bool
  | none => false
  | some s => decide (s ≠ "")

/-- The `subErrors` expression: filter the parent's attached errors to
those whose path starts with the response key, then re-shape each to
`{message, locations, path: path && path.slice(1)}`. -/
def selectSubErrors (errs : List ErrInfo) (responseKey : String) : List ErrInfo :=
  (errs.filter fun e =>
      match e.path with
      | some (p :: _) => decide (p = PathSeg.str responseKey)
      | _ => false).map
    fun e => { message := e.message, locations := e.locations, path := e.path.map List.tail }

/-- `if (!x[ERROR_SYMBOL]) x[ERROR_SYMBOL] = []; x[ERROR_SYMBOL].push(e)`:
append an error to a value's attached list. On a primitive the
strict-mode assignment (or the `push` on `undefined`) throws. -/
def pushErr (v : Value) (e : ErrInfo) : Except Unit Value :=
  match v with
  | .obj props errs => .ok (.obj props (errs ++ [e]))
  | .arr elems errs => .ok (.arr elems (errs ++ [e]))
  | _ => .error ()

/-- The array branch of the attach loop: for each sub-error, push
`{message, locations, path: path.slice(1)}` onto `result[path[0]]`. A
missing element, a non-indexable element, or a path not starting with an
index makes the JS code throw a `TypeError`. -/
def attachToElements (elems : List Value) : List ErrInfo → Except Unit (List Value)
  | [] => .ok elems
  | e :: rest =>
    match e.path with
    | some (PathSeg.idx n :: _) =>
      match elems[n]? with
      | some v =>
        match pushErr v { message := e.message, locations := e.locations,
                          path := e.path.map List.tail } with
        | .ok v2 => attachToElements (elems.set n v2) rest
        | .error _ => .error ()
      | none => .error ()
    | _ => .error ()

/-- `createFieldResolver(schema, mergeQuery)` applied to `(parent, args,
context, info)`. The `.crash` outcomes mark the spots where the JS code
would throw a `TypeError` (property access on `null`, `parent.id` on
`undefined`, attaching onto a primitive). -/
def createFieldResolver (schema : Nat) (mergeQuery : Option String) (parent : Value)
    (args : Value) (context : Nat) (info : ResolveInfo) : ResolverOutcome :=
  let responseKey := responseKeyOf info
  let result := if jsTruthy parent then jsGet parent responseKey else parent
  match result with
  | .undefined =>
    let info2 :=
      if strTruthy mergeQuery then
        { info with
            fieldNodes := [FieldNode.mk none (mergeQuery.getD "") (some info.fieldNodes)] }
      else info
    if strTruthy mergeQuery && (match parent with | .undefined => true | _ => false) then
      .crash
    else
      let request : DelegationRequest :=
        { schema := schema
          operation := "query"
          fieldName := if strTruthy mergeQuery then mergeQuery.getD "" else info.fieldName
          args :=
            if strTruthy mergeQuery then .obj [("id", jsGet parent "id")] [] else args
          context := context
          info := info2 }
      if strTruthy mergeQuery then .delegateThen request responseKey else .delegate request
  | _ =>
    match parent with
    | .null => .crash
    | _ =>
      let subErrors := selectSubErrors (errsOf parent) responseKey
      let fieldError := subErrors.filter fun e =>
        match e.path with
        | some p => p.isEmpty
        | none => false
      match fieldError with
      | fe :: _ => .thrown fe.message
      | [] =>
        if subErrors.length > 0 then
          match result with
          | .arr elems errs0 =>
            match attachToElements elems subErrors with
            | .ok elems2 => .value (.arr elems2 errs0)
            | .error _ => .crash
          | .obj props _ => .value (.obj props subErrors)
          | _ => .crash
        else .value result

/-- The `.then` continuation of the entry-point path:
`requestResult ? requestResult[responseKey] : null`. -/
def unwrapMergeResult (responseKey : String) (requestResult : Value) : Value :=
  if jsTruthy requestResult then jsGet requestResult responseKey else .null

/-!
### Spec-side definitions and observation helpers

The `spec…` definitions below transcribe the specification's wording (not
the source); the theorems compare the source translation against them.
The remaining helpers are observations used to state properties.
-/

/-- Spec-side: "exactly the errors whose path's first segment equals the
response key are selected, with their path shortened by one segment". -/
def specSelectedErrors (errs : List ErrInfo) (responseKey : String) : List ErrInfo :=
  errs.filterMap fun e =>
    match e.path with
    | some (PathSeg.str p :: rest) =>
      if p = responseKey then
        some { message := e.message, locations := e.locations, path := some rest }
      else none
    | _ => none

/-- Spec-side: "the first candidate in effective schema order that
declares the field name", together with its declared field. -/
def specFirstDeclarer (types : List ObjCand) (k : String) : Option FieldWinner :=
  match types with
  | [] => none
  | t :: rest =>
    match getProp t.type.fields k with
    | some f => some { schema := t.schema, field := f, replaceResolvers := t.replaceResolvers }
    | none => specFirstDeclarer rest k

/-- Spec-side: all `(schema, field)` pairs declaring a root field name,
in effective schema order. -/
def specRootCandidates (types : List RootCand) (k : String) : List (Nat × FieldDef) :=
  types.filterMap fun t => (getProp t.type.fields k).map fun f => (t.schema, f)

/-- Spec-side: "read from whichever candidate exposed a non-empty value
for that attribute, scanned in source order" (string attributes). -/
def specFirstNonEmptyStr (attrs : List (Option String)) : Option String :=
  (attrs.filter oStrTruthy).head?.join

/-- Spec-side: "the first source to declare that name becomes its sole
owner; type/args/description read per attribute from the first candidate
exposing a non-empty value" — a root field config in the spec's words. A
field's `type` and `args` are always present (and truthy in JS), so their
"first non-empty" is the first candidate's. -/
def specRootFieldConfig (nameSet : List String) (bucket : List (Nat × FieldDef)) :
    FieldConfigOut :=
  { type :=
      ((bucket.map fun c => c.2.type).head?.map (rewriteRef nameSet)).getD
        { ref := .named "", repointed := false }
    args := createArgumentConfig ((bucket.map fun c => c.2.args).head?.getD []) nameSet
    resolve := .rootDelegate ((bucket.map Prod.fst).head?.getD 0)
    deprecationReason := specFirstNonEmptyStr (bucket.map fun c => c.2.deprecationReason)
    description := specFirstNonEmptyStr (bucket.map fun c => c.2.description)
    astNode := ((bucket.map fun c => c.2.astNode).filter Option.isSome).head?.join }

/-- Drop a value's top-level attached errors (observation). -/
def stripTop : Value → Value
  | .obj props _ => .obj props []
  | .arr elems _ => .arr elems []
  | v => v

/-- Whether errors can be attached to this value (it is an object or an
array). -/
def isErrCarrier : Value → Bool
  | .obj _ _ => true
  | .arr _ _ => true
  | _ => false

/-- The sub-errors destined for element `i` of an array result: those
whose (already shortened) path starts with index `i`, shortened once
more (observation; mirrors where the attach loop puts each error). -/
def errsForIndex (sub : List ErrInfo) (i : Nat) : List ErrInfo :=
  sub.filterMap fun e =>
    match e.path with
    | some (PathSeg.idx j :: rest) =>
      if j = i then
        some { message := e.message, locations := e.locations, path := some rest }
      else none
    | _ => none

/-- Precondition under which the attach phase is free of JS `TypeError`s:
either no sub-errors, or the result is an object, or it is an array and
every sub-error with a non-empty path targets an in-range, attachable
element through an index segment. -/
def wellFormedAttach (result : Value) (sub : List ErrInfo) : Bool :=
  sub.isEmpty ||
    (match result with
     | .obj _ _ => true
     | .arr elems _ =>
       sub.all fun e =>
         match e.path with
         | some [] => true
         | some (PathSeg.idx n :: _) =>
           decide (n < elems.length) && isErrCarrier (elems.getD n .undefined)
         | _ => false
     | _ => false)

/-- What the present branch of `createFieldResolver` must produce when no
selected error has an empty path (observation; see the C5 theorem): for a
non-array result the selected errors replace the value's error slot; for
an array result each selected error `{path: i :: rest}` is appended to
element `i` with path `rest`, everything else about the elements
unchanged; for a primitive result (possible only with no selected
errors) the value is returned untouched. -/
def presentAttachSpec (call : ResolverOutcome) (result : Value) (sub : List ErrInfo) : Prop :=
  match result with
  | .obj rp re => call = .value (.obj rp (if sub.isEmpty then re else sub))
  | .arr elems errs0 =>
    ∃ elems2, call = .value (.arr elems2 errs0) ∧
      elems2.length = elems.length ∧
      ∀ i, i < elems.length →
        stripTop (elems2.getD i Value.undefined) = stripTop (elems.getD i Value.undefined) ∧
        errsOf (elems2.getD i Value.undefined) =
          errsOf (elems.getD i Value.undefined) ++ errsForIndex sub i
  | _ => call = .value result

/-!
### Concrete fixtures for witnesses and counterexamples
-/

/-- A plain field: `f: Int` with no metadata and no own resolver. -/
def fdefPlain : FieldDef :=
  { type := .named "Int", args := [], resolve := none, deprecationReason := none,
    description := none, astNode := none }

/-- A documented, deprecated field of the same shape. -/
def fdefDocs : FieldDef :=
  { fdefPlain with description := some "Docs", deprecationReason := some "old" }

/-- A field with an original resolver attached (id 7). -/
def fdefResolved : FieldDef := { fdefPlain with resolve := some 7 }

/-- Object type `T { f: Int }` with no metadata. -/
def objPlainT : ObjectTypeDef :=
  { name := "T", description := none, isTypeOf := none, astNode := none,
    extensionASTNodes := none, fields := [("f", fdefPlain)], interfaces := [] }

/-- Object type `T { f: Int }` whose `f` carries documentation. -/
def objDocsT : ObjectTypeDef := { objPlainT with fields := [("f", fdefDocs)] }

/-- Object type `URL { f: Int }` — an all-caps name. -/
def objURL : ObjectTypeDef := { objPlainT with name := "URL" }

/-- Object type `Foo { f: Int }` — a simple capitalized name. -/
def objFooT : ObjectTypeDef := { objPlainT with name := "Foo" }

/-- Object type `T { f: Int }` whose `f` has its own resolver. -/
def objResolvedT : ObjectTypeDef := { objPlainT with fields := [("f", fdefResolved)] }

/-- The situation C2 describes, as a decidable check on one candidate
list: every candidate survives `isTypeToInclude`, at least one is an
Object type, and not all are. -/
def isMixedIncludedBucket (cands : List Candidate) : Bool :=
  (cands.all fun c => isTypeToInclude c.type) &&
  (cands.any fun c => isObjectType c.type) &&
  !(cands.all fun c => isObjectType c.type)

/-- A `Query` root type whose only field `q` carries its own resolver
(id 7). -/
def localQueryRoot : ObjectTypeDef :=
  { name := "Query", description := none, isTypeOf := none, astNode := none,
    extensionASTNodes := none, fields := [("q", fdefResolved)], interfaces := [] }

/-- A local schema whose only root field `Query.q` carries its own
resolver (id 7). -/
def localRootSchema : Schema :=
  { sid := 0
    queryType := some localQueryRoot
    mutationType := none
    subscriptionType := none
    typeMap := [] }

/-- A schema defining `Foo` as an Object type. -/
def fooObjectSchema : Schema :=
  { sid := 1, queryType := none, mutationType := none, subscriptionType := none,
    typeMap := [("Foo", .objectT objFooT)] }

/-- A schema defining `Foo` as an Interface type. -/
def fooInterfaceSchema : Schema :=
  { sid := 2, queryType := none, mutationType := none, subscriptionType := none,
    typeMap := [("Foo",
      .interfaceT
        { name := "Foo", description := none, astNode := none, extensionASTNodes := none,
          fields := [] })] }

/-- Root type `Query { q: Int }` owned by schema 1. -/
def rootQueryOne : ObjectTypeDef :=
  { name := "Query", description := none, isTypeOf := none, astNode := none,
    extensionASTNodes := none, fields := [("q", fdefPlain)], interfaces := [] }

/-- Root type `Query { q: Int (documented), r: Int }` owned by schema 2. -/
def rootQueryTwo : ObjectTypeDef :=
  { rootQueryOne with fields := [("q", fdefDocs), ("r", fdefPlain)] }

/-- A resolve info for a field `f` requested without alias. -/
def infoF : ResolveInfo :=
  { fieldNodes := [FieldNode.mk none "f" none], fieldName := "f", operation := "query" }

/-- A resolve info for a field `foo` requested without alias. -/
def infoFoo : ResolveInfo :=
  { fieldNodes := [FieldNode.mk none "foo" none], fieldName := "foo", operation := "query" }

/-- Partial errors attached to a parent: one under `foo.x`, one under
`bar`. -/
def errsFixture : List ErrInfo :=
  [{ message := "boom", locations := none, path := some [.str "foo", .str "x"] },
   { message := "other", locations := none, path := some [.str "bar"] }]

/-- A schema that defines Query and Subscription root types but no
Mutation. -/
def subSchema : Schema :=
  { sid := 3
    queryType := some rootQueryOne
    mutationType := none
    subscriptionType := some
      { name := "Subscription", description := none, isTypeOf := none, astNode := none,
        extensionASTNodes := none, fields := [("tick", fdefPlain)], interfaces := [] }
    typeMap := [] }

/-!
### Association-map lemmas
-/

theorem getProp_eq_none_of_not_mem {α : Type} (l : List (String × α)) (k : String)
    (h : k ∉ l.map Prod.fst) : getProp l k = none := by
  induction l with
  | nil => rfl
  | cons hd tl ih =>
    simp only [List.map_cons, List.mem_cons] at h
    push_neg at h
    simp only [getProp]
    rw [if_neg (fun he => h.1 he.symm)]
    exact ih h.2

theorem getProp_insertIfAbsent {α : Type} (l : List (String × α)) (k k2 : String) (v : α) :
    getProp (insertIfAbsent l k v) k2 =
      ((getProp l k2).orElse fun _ => if k = k2 then some v else none) := by
  induction l with
  | nil => simp [insertIfAbsent, getProp, Option.orElse]
  | cons hd tl ih =>
    obtain ⟨k1, v1⟩ := hd
    by_cases h1 : k1 = k
    · subst h1
      simp only [insertIfAbsent, if_pos rfl, getProp]
      by_cases h2 : k1 = k2
      · simp [h2, Option.orElse]
      · simp only [if_neg h2, Option.orElse]
        cases getProp tl k2 <;> simp [h2]
    · simp only [insertIfAbsent, if_neg h1, getProp]
      by_cases h2 : k1 = k2
      · simp [h2, Option.orElse]
      · simp [h2, ih]

theorem mem_keys_insertIfAbsent {α : Type} (l : List (String × α)) (k k2 : String) (v : α)
    (h : k2 ∈ (insertIfAbsent l k v).map Prod.fst) : k2 ∈ l.map Prod.fst ∨ k2 = k := by
  induction l with
  | nil => simpa [insertIfAbsent] using h
  | cons hd tl ih =>
    obtain ⟨k1, v1⟩ := hd
    by_cases h1 : k1 = k
    · simp only [insertIfAbsent, if_pos h1] at h
      exact .inl h
    · simp only [insertIfAbsent, if_neg h1, List.map_cons, List.mem_cons] at h
      rcases h with h | h
      · exact .inl (by simp [h])
      · rcases ih h with h2 | h2
        · exact .inl (by simp [h2])
        · exact .inr h2

theorem nodup_keys_insertIfAbsent {α : Type} (l : List (String × α)) (k : String) (v : α)
    (h : (l.map Prod.fst).Nodup) : ((insertIfAbsent l k v).map Prod.fst).Nodup := by
  induction l with
  | nil => simp [insertIfAbsent]
  | cons hd tl ih =>
    obtain ⟨k1, v1⟩ := hd
    simp only [List.map_cons, List.nodup_cons] at h
    by_cases h1 : k1 = k
    · simp only [insertIfAbsent, if_pos h1, List.map_cons, List.nodup_cons]
      exact h
    · simp only [insertIfAbsent, if_neg h1, List.map_cons, List.nodup_cons]
      refine ⟨fun hmem => ?_, ih h.2⟩
      rcases mem_keys_insertIfAbsent tl k k1 v hmem with h2 | h2
      · exact h.1 h2
      · exact h1 h2

theorem getProp_mapVals {α β : Type} (f : α → β) (l : List (String × α)) (k : String) :
    getProp (l.map fun kv => (kv.1, f kv.2)) k = (getProp l k).map f := by
  induction l with
  | nil => rfl
  | cons hd tl ih =>
    obtain ⟨k1, v1⟩ := hd
    by_cases h : k1 = k
    · simp [getProp, h]
    · simp [getProp, h, ih]

theorem keys_mapVals {α β : Type} (f : α → β) (l : List (String × α)) :
    ((l.map fun kv => (kv.1, f kv.2)).map Prod.fst) = l.map Prod.fst := by
  induction l with
  | nil => rfl
  | cons hd tl ih => simp [ih]

theorem getProp_pushBucket {α : Type} (l : List (String × List α)) (k k2 : String) (v : α) :
    getProp (pushBucket l k v) k2 =
      if k = k2 then some ((getProp l k2).getD [] ++ [v]) else getProp l k2 := by
  induction l with
  | nil =>
    by_cases h : k = k2 <;> simp [pushBucket, getProp, h]
  | cons hd tl ih =>
    obtain ⟨k1, vs⟩ := hd
    by_cases h1 : k1 = k
    · subst h1
      by_cases h2 : k1 = k2
      · simp [pushBucket, getProp, h2]
      · simp [pushBucket, getProp, h2]
    · by_cases h2 : k1 = k2
      · subst h2
        have hk : ¬k = k1 := fun he => h1 he.symm
        simp [pushBucket, getProp, h1, hk]
      · simp [pushBucket, getProp, h1, h2, ih]

/-!
### The non-root field map: first candidate wins
-/

theorem insertFieldsOf_getProp (t : ObjCand) (fl : List (String × FieldDef))
    (acc : List (String × FieldWinner)) (k : String) :
    getProp (insertFieldsOf t fl acc) k =
      ((getProp acc k).orElse fun _ =>
        (getProp fl k).map fun f =>
          { schema := t.schema, field := f, replaceResolvers := t.replaceResolvers }) := by
  induction fl generalizing acc with
  | nil =>
    cases h : getProp acc k <;> simp [insertFieldsOf, h, Option.orElse, getProp]
  | cons hd tl ih =>
    obtain ⟨k1, f1⟩ := hd
    simp only [insertFieldsOf]
    rw [ih, getProp_insertIfAbsent]
    cases hacc : getProp acc k with
    | some w => simp [Option.orElse]
    | none =>
      by_cases h : k1 = k
      · simp [Option.orElse, getProp, h]
      · simp [Option.orElse, getProp, h]

theorem collectObjectFieldsAux_getProp (types : List ObjCand)
    (acc : List (String × FieldWinner)) (k : String) :
    getProp (collectObjectFieldsAux types acc) k =
      ((getProp acc k).orElse fun _ => specFirstDeclarer types k) := by
  induction types generalizing acc with
  | nil =>
    cases h : getProp acc k <;> simp [collectObjectFieldsAux, h, Option.orElse, specFirstDeclarer]
  | cons t ts ih =>
    simp only [collectObjectFieldsAux]
    rw [ih, insertFieldsOf_getProp]
    cases hacc : getProp acc k with
    | some w => simp [Option.orElse]
    | none =>
      simp only [Option.orElse]
      cases hf : getProp t.type.fields k <;> simp [specFirstDeclarer, hf, Option.orElse]

theorem collectObjectFields_getProp (types : List ObjCand) (k : String) :
    getProp (collectObjectFields types) k = specFirstDeclarer types k := by
  rw [collectObjectFields, collectObjectFieldsAux_getProp]
  rfl

theorem insertFieldsOf_nodup (t : ObjCand) (fl : List (String × FieldDef))
    (acc : List (String × FieldWinner)) (h : (acc.map Prod.fst).Nodup) :
    ((insertFieldsOf t fl acc).map Prod.fst).Nodup := by
  induction fl generalizing acc with
  | nil => exact h
  | cons hd tl ih =>
    simp only [insertFieldsOf]
    exact ih _ (nodup_keys_insertIfAbsent _ _ _ h)

theorem collectObjectFields_nodup (types : List ObjCand) :
    ((collectObjectFields types).map Prod.fst).Nodup := by
  rw [collectObjectFields]
  have h : (([] : List (String × FieldWinner)).map Prod.fst).Nodup := by simp
  generalize ([] : List (String × FieldWinner)) = acc at h ⊢
  induction types generalizing acc with
  | nil => exact h
  | cons t ts ih =>
    simp only [collectObjectFieldsAux]
    exact ih _ (insertFieldsOf_nodup _ _ _ h)

theorem createFieldMapConfig_getProp (types : List ObjCand) (nameSet : List String)
    (mergeQuery : String) (k : String) :
    getProp (createFieldMapConfig types nameSet mergeQuery) k =
      (specFirstDeclarer types k).map (nonRootFieldConfig nameSet mergeQuery) := by
  rw [createFieldMapConfig, getProp_mapVals, collectObjectFields_getProp]

/-!
### The root field map: buckets in declaration order
-/

theorem pushRootFields_getProp (t : RootCand) (fl : List (String × FieldDef))
    (acc : List (String × List (Nat × FieldDef))) (k : String)
    (h : (fl.map Prod.fst).Nodup) :
    getProp (pushRootFields t fl acc) k =
      (match getProp fl k with
       | some f => some ((getProp acc k).getD [] ++ [(t.schema, f)])
       | none => getProp acc k) := by
  induction fl generalizing acc with
  | nil => simp [pushRootFields, getProp]
  | cons hd tl ih =>
    obtain ⟨k1, f1⟩ := hd
    simp only [List.map_cons, List.nodup_cons] at h
    simp only [pushRootFields]
    rw [ih _ h.2, getProp_pushBucket]
    by_cases h1 : k1 = k
    · subst h1
      have hnone : getProp tl k1 = none := getProp_eq_none_of_not_mem _ _ h.1
      simp [getProp, hnone]
    · have hk : ¬k1 = k := h1
      simp [getProp, hk, fun he => h1 he]

theorem collectRootFieldsAux_getProp (types : List RootCand)
    (acc : List (String × List (Nat × FieldDef))) (k : String)
    (hwf : ∀ t ∈ types, (t.type.fields.map Prod.fst).Nodup) :
    getProp (collectRootFieldsAux types acc) k =
      (match getProp acc k with
       | some vs => some (vs ++ specRootCandidates types k)
       | none =>
         match specRootCandidates types k with
         | [] => none
         | l => some l) := by
  induction types generalizing acc with
  | nil =>
    cases h : getProp acc k <;> simp [collectRootFieldsAux, h, specRootCandidates]
  | cons t ts ih =>
    simp only [collectRootFieldsAux]
    rw [ih _ (fun t2 ht2 => hwf t2 (List.mem_cons_of_mem _ ht2)),
      pushRootFields_getProp _ _ _ _ (hwf t (List.mem_cons_self _ _))]
    have hspec : specRootCandidates (t :: ts) k =
        ((getProp t.type.fields k).map fun f => (t.schema, f)).toList ++
          specRootCandidates ts k := by
      cases hf : getProp t.type.fields k <;> simp [specRootCandidates, hf]
    cases hf : getProp t.type.fields k with
    | some f =>
      cases hacc : getProp acc k with
      | some vs => simp [hspec, hf, hacc]
      | none => simp [hspec, hf, hacc]
    | none =>
      cases hacc : getProp acc k with
      | some vs => simp [hspec, hf, hacc]
      | none => simp [hspec, hf, hacc]

theorem collectRootFields_getProp (types : List RootCand) (k : String)
    (hwf : ∀ t ∈ types, (t.type.fields.map Prod.fst).Nodup) :
    getProp (collectRootFields types) k =
      (match specRootCandidates types k with
       | [] => none
       | l => some l) := by
  rw [collectRootFields, collectRootFieldsAux_getProp _ _ _ hwf]
  rfl

/-- The per-bucket config the code builds agrees with the spec-side one:
the always-truthy attributes come from the first candidate, the optional
ones from the first candidate with a non-empty value, the resolver
delegates to the first schema. -/
theorem rootFieldConfig_eq_spec (nameSet : List String) (bucket : List (Nat × FieldDef)) :
    rootFieldConfig nameSet bucket = specRootFieldConfig nameSet bucket := by
  simp only [rootFieldConfig, specRootFieldConfig, getCandidateAttribute, specFirstNonEmptyStr,
    List.filter_true, List.head?_map, Option.map_map, List.map_map]
  exact rfl

/-!
### C3 — non-root field maps: unique keys, first candidate wins
-/

/-- **C3.** For every merged non-root Object type, each field name appears
at most once in the output field map (its keys are `Nodup`), and the field
registered under a name is the one from the first candidate in effective
schema order that declares it (`specFirstDeclarer`); later same-named
declarations are ignored. The builder is total — no input makes it throw,
matching the absence of any `throw` in `createFieldMapConfig`. -/
theorem createFieldMapConfig_unique_first_wins (types : List ObjCand)
    (nameSet : List String) (mergeQuery : String) (k : String) :
    ((createFieldMapConfig types nameSet mergeQuery).map Prod.fst).Nodup ∧
    getProp (createFieldMapConfig types nameSet mergeQuery) k =
      (specFirstDeclarer types k).map (nonRootFieldConfig nameSet mergeQuery) := by
  constructor
  · rw [createFieldMapConfig, keys_mapVals]
    exact collectObjectFields_nodup types
  · exact createFieldMapConfig_getProp types nameSet mergeQuery k

/-!
### C10 — non-root field attributes come from the single first declarer
-/

/-- **C10.** For every merged non-root Object type and field, all of the
output field's attributes — type, argument list, description, deprecation
reason and astNode — are taken together from the single first candidate
declaring that field name, and later candidates are never consulted: any
candidate list with the same first declarer yields the same config (in
contrast to root fields, where each attribute is chosen per-attribute,
see `specRootFieldConfig`). -/
theorem createFieldMapConfig_single_winner_attributes (types types2 : List ObjCand)
    (nameSet : List String) (mergeQuery k : String) (w : FieldWinner)
    (hw : specFirstDeclarer types k = some w)
    (hagree : specFirstDeclarer types2 k = some w) :
    getProp (createFieldMapConfig types nameSet mergeQuery) k = some
      { type := rewriteRef nameSet w.field.type
        args := createArgumentConfig w.field.args nameSet
        resolve :=
          if w.replaceResolvers then .fieldDelegate w.schema (some mergeQuery)
          else .original w.field.resolve
        deprecationReason := w.field.deprecationReason
        description := w.field.description
        astNode := w.field.astNode } ∧
    getProp (createFieldMapConfig types nameSet mergeQuery) k =
      getProp (createFieldMapConfig types2 nameSet mergeQuery) k := by
  constructor
  · rw [createFieldMapConfig_getProp, hw]
    rfl
  · rw [createFieldMapConfig_getProp, createFieldMapConfig_getProp, hw, hagree]

/-- Witness for C10: two candidates both declare `f`; the second one's
non-empty description and deprecation reason are never consulted — the
config equals the one built from the first candidate alone. -/
theorem createFieldMapConfig_single_winner_attributes_witness :
    (getProp
        (createFieldMapConfig
          [{ schema := 1, type := objPlainT, replaceResolvers := true },
           { schema := 2, type := objDocsT, replaceResolvers := true }] [] "t") "f").map
        (fun c => c.description) = some none ∧
    getProp
        (createFieldMapConfig
          [{ schema := 1, type := objPlainT, replaceResolvers := true },
           { schema := 2, type := objDocsT, replaceResolvers := true }] [] "t") "f" =
      getProp
        (createFieldMapConfig
          [{ schema := 1, type := objPlainT, replaceResolvers := true }] [] "t") "f" := by
  have h := createFieldMapConfig_single_winner_attributes
    [{ schema := 1, type := objPlainT, replaceResolvers := true },
     { schema := 2, type := objDocsT, replaceResolvers := true }]
    [{ schema := 1, type := objPlainT, replaceResolvers := true }] [] "t" "f"
    { schema := 1, field := fdefPlain, replaceResolvers := true } rfl rfl
  exact ⟨by rw [h.1]; rfl, h.2⟩

/-!
### C4 — root fields: first declaring schema owns, per-attribute firsts
-/

/-- **C4.** For every merged root field name: the produced config is
`specRootFieldConfig` over the bucket of all `(schema, field)` pairs
declaring that name in effective order — so the resolver is bound to the
first schema that declares the field (`rootDelegate` of the bucket's
head), and type/args/description/deprecation/astNode are each the first
truthy value per attribute in source order; and the root resolver
delegates the incoming operation forwarding operation kind, field name,
arguments and context unchanged, returning the delegated result as-is.
The hypothesis says each source's field map has unique keys, which
`type.getFields()` guarantees. -/
theorem createRootFieldMapConfig_owner_and_attributes (types : List RootCand)
    (nameSet : List String) (k : String)
    (hwf : ∀ t ∈ types, (t.type.fields.map Prod.fst).Nodup) :
    getProp (createRootFieldMapConfig types nameSet) k =
      (match specRootCandidates types k with
       | [] => none
       | bucket => some (specRootFieldConfig nameSet bucket)) ∧
    (∀ b : List (Nat × FieldDef),
      (specRootFieldConfig nameSet b).resolve = .rootDelegate ((b.map Prod.fst).head?.getD 0)) ∧
    (∀ (sid : Nat) (parent args : Value) (context : Nat) (info : ResolveInfo),
      createRootResolver sid parent args context info =
        { schema := sid, operation := info.operation, fieldName := info.fieldName,
          args := args, context := context, info := info }) := by
  refine ⟨?_, fun b => rfl, fun sid p a c i => rfl⟩
  rw [createRootFieldMapConfig, getProp_mapVals, collectRootFields_getProp _ _ hwf]
  cases specRootCandidates types k with
  | nil => rfl
  | cons b bs => simp [rootFieldConfig_eq_spec]

/-- Witness for C4: with two sources both declaring `q`, the merged `q`
is owned by schema 1 (first declarer) while its description comes from
schema 2 — the first candidate with a non-empty value. -/
theorem createRootFieldMapConfig_owner_and_attributes_witness :
    getProp
        (createRootFieldMapConfig
          [{ schema := 1, type := rootQueryOne }, { schema := 2, type := rootQueryTwo }] []) "q" =
      (match specRootCandidates
          [{ schema := 1, type := rootQueryOne }, { schema := 2, type := rootQueryTwo }] "q" with
       | [] => none
       | bucket => some (specRootFieldConfig [] bucket)) ∧
    (getProp
        (createRootFieldMapConfig
          [{ schema := 1, type := rootQueryOne }, { schema := 2, type := rootQueryTwo }] []) "q").map
        (fun c => (c.resolve, c.description)) =
      some (.rootDelegate 1, some "Docs") := by
  have h := (createRootFieldMapConfig_owner_and_attributes
    [{ schema := 1, type := rootQueryOne }, { schema := 2, type := rootQueryTwo }] [] "q"
    (by decide)).1
  exact ⟨h, by rw [h]; rfl⟩

/-!
### Character-level lemmas for the `camelCase` analysis
-/

theorem uint32_le_iff (a b : UInt32) : a ≤ b ↔ a.toNat ≤ b.toNat := by
  simp [UInt32.le_def, BitVec.le_def, UInt32.toNat]

theorem char_isUpper_iff (c : Char) : c.isUpper = true ↔ 65 ≤ c.toNat ∧ c.toNat ≤ 90 := by
  simp [Char.isUpper, uint32_le_iff, Char.toNat, UInt32.size]

theorem char_isLower_iff (c : Char) : c.isLower = true ↔ 97 ≤ c.toNat ∧ c.toNat ≤ 122 := by
  simp [Char.isLower, uint32_le_iff, Char.toNat, UInt32.size]

theorem char_isDigit_iff (c : Char) : c.isDigit = true ↔ 48 ≤ c.toNat ∧ c.toNat ≤ 57 := by
  simp [Char.isDigit, uint32_le_iff, Char.toNat, UInt32.size]

theorem char_upper_true (c : Char) (h1 : 65 ≤ c.toNat) (h2 : c.toNat ≤ 90) :
    c.isUpper = true := (char_isUpper_iff c).mpr ⟨h1, h2⟩

theorem char_lower_true (c : Char) (h1 : 97 ≤ c.toNat) (h2 : c.toNat ≤ 122) :
    c.isLower = true := (char_isLower_iff c).mpr ⟨h1, h2⟩

theorem char_upper_false (c : Char) (h : 97 ≤ c.toNat) : c.isUpper = false := by
  rw [Bool.eq_false_iff, ne_eq, char_isUpper_iff]
  omega

theorem char_lower_false (c : Char) (h : c.toNat ≤ 90) : c.isLower = false := by
  rw [Bool.eq_false_iff, ne_eq, char_isLower_iff]
  omega

theorem char_digit_false (c : Char) (h : 65 ≤ c.toNat) : c.isDigit = false := by
  rw [Bool.eq_false_iff, ne_eq, char_isDigit_iff]
  omega

theorem char_alpha_true (c : Char)
    (h : 65 ≤ c.toNat ∧ c.toNat ≤ 90 ∨ 97 ≤ c.toNat ∧ c.toNat ≤ 122) : c.isAlpha = true := by
  rcases h with h | h
  · simp [Char.isAlpha, char_upper_true c h.1 h.2]
  · simp [Char.isAlpha, char_lower_true c h.1 h.2]

theorem char_toLower_of_lower (c : Char) (h : 97 ≤ c.toNat) : c.toLower = c := by
  have hno : ¬(65 ≤ c.toNat ∧ c.toNat ≤ 90) := by omega
  simp [Char.toLower, hno]

theorem char_ne_apos (c : Char) (h : 65 ≤ c.toNat) : ¬(c = Char.ofNat 39) := by
  intro he
  rw [he] at h
  simp [Char.ofNat, Char.toNat, UInt32.size] at h

theorem char_ne_apos2 (c : Char) (h : 65 ≤ c.toNat ∧ c.toNat ≤ 122) :
    ¬(c = Char.ofNat 0x2019) := by
  intro he
  rw [he] at h
  simp [Char.ofNat, Char.toNat, UInt32.size] at h

theorem asciiWordChar_letter (c : Char)
    (h : 65 ≤ c.toNat ∧ c.toNat ≤ 90 ∨ 97 ≤ c.toNat ∧ c.toNat ≤ 122) :
    asciiWordChar c = true := by
  simp [asciiWordChar]
  omega

theorem filter_apos_id (l : List Char) (h : ∀ x ∈ l, 65 ≤ x.toNat ∧ x.toNat ≤ 122) :
    (l.filter fun ch => !(decide (ch = Char.ofNat 39) || decide (ch = Char.ofNat 0x2019))) = l := by
  apply List.filter_eq_self.mpr
  intro a ha
  have h2 := h a ha
  simp [char_ne_apos a h2.1, char_ne_apos2 a h2]

theorem map_toLower_of_lower (l : List Char) (h : ∀ x ∈ l, 97 ≤ x.toNat ∧ x.toNat ≤ 122) :
    l.map Char.toLower = l := by
  induction l with
  | nil => rfl
  | cons a rest ih =>
    have ha := h a (by simp)
    simp only [List.map_cons, char_toLower_of_lower a ha.1,
      ih fun x hx => h x (List.mem_cons_of_mem _ hx)]

theorem uwPairs_all_lower (l : List Char) (h : ∀ x ∈ l, 97 ≤ x.toNat ∧ x.toNat ≤ 122) :
    uwPairs l = false := by
  induction l with
  | nil => rfl
  | cons a rest ih =>
    cases rest with
    | nil => rfl
    | cons b rest2 =>
      have ha := h a (by simp)
      have hb := h b (by simp)
      have hih := ih fun x hx => h x (List.mem_cons_of_mem _ hx)
      simp [uwPairs, char_lower_true a ha.1 ha.2, char_upper_false b hb.1,
        char_digit_false a (by omega), char_digit_false b (by omega),
        char_upper_false a ha.1, hih]

theorem uwPairs_simple_name (c : Char) (cs : List Char)
    (hc : 65 ≤ c.toNat ∧ c.toNat ≤ 90)
    (hcs : ∀ x ∈ cs, 97 ≤ x.toNat ∧ x.toNat ≤ 122) :
    uwPairs (c :: cs) = false := by
  cases cs with
  | nil => rfl
  | cons b rest =>
    have hb := hcs b (by simp)
    simp [uwPairs, char_lower_false c hc.2, char_upper_false b hb.1,
      char_digit_false c (by omega), char_digit_false b (by omega),
      uwPairs_all_lower _ hcs]

theorem hasUnicodeWord_simple_name (c : Char) (cs : List Char)
    (hc : 65 ≤ c.toNat ∧ c.toNat ≤ 90)
    (hcs : ∀ x ∈ cs, 97 ≤ x.toNat ∧ x.toNat ≤ 122) :
    hasUnicodeWord (c :: cs) = false := by
  rw [hasUnicodeWord, Bool.or_eq_false_iff]
  refine ⟨List.any_eq_false.mpr fun x hx => ?_, uwPairs_simple_name c cs hc hcs⟩
  rcases List.mem_cons.mp hx with h | h
  · subst h
    simp [char_alpha_true x (.inl hc)]
  · simp [char_alpha_true x (.inr (hcs x h))]

theorem splitRuns_all_true (p : Char → Bool) (l : List Char) (hne : l ≠ [])
    (h : ∀ x ∈ l, p x = true) : splitRuns p l = [l] := by
  induction l with
  | nil => cases hne rfl
  | cons c rest ih =>
    cases rest with
    | nil => simp [splitRuns, h c (by simp)]
    | cons r rest2 =>
      have hr := h r (by simp)
      have hc := h c (by simp)
      have ihr := ih (by simp) fun x hx => h x (List.mem_cons_of_mem _ hx)
      have hstep : splitRuns p (c :: r :: rest2) =
          (if p c = true then
            (if p r = true then
              (match splitRuns p (r :: rest2) with
               | w :: ws2 => (c :: w) :: ws2
               | [] => [[c]])
             else [c] :: splitRuns p (r :: rest2))
           else splitRuns p (r :: rest2)) := rfl
      rw [hstep, if_pos hc, if_pos hr, ihr]

/-!
### C9 — the entry-point name is lodash `camelCase`, not lowercase-first
-/

/-- Counterexample for C9: for the type name `URL`, the bound entry-point
name is `camelCase("URL") = "url"`, not the claimed
lowercase-first-letter form `"uRL"`; the resolver installed on the merged
type's field receives `"url"`. -/
theorem mergeQuery_camelCase_cex :
    camelCase "URL" = "url" ∧
    lowerFirst "URL" = "uRL" ∧
    mergeQueryFor [{ schema := 5, type := objURL, replaceResolvers := true }] = "url" ∧
    mergeQueryFor [{ schema := 5, type := objURL, replaceResolvers := true }] ≠ lowerFirst "URL" ∧
    (getProp (mergeObjectTypes [{ schema := 5, type := objURL, replaceResolvers := true }] []).fields
        "f").map (fun cfg => cfg.resolve) = some (.fieldDelegate 5 (some "url")) := by
  refine ⟨rfl, rfl, rfl, ?_, rfl⟩
  decide

/-- **C9 (amended).** The entry-point query name handed to a merged
type's field delegation resolvers is lodash `camelCase` of the first
candidate's type name. For names of the common shape — one uppercase
letter followed by lowercase letters — this coincides with the claimed
lowercase-first-letter form; in general it does not (see the
counterexample: all-caps names are fully lowercased, and word splits
re-capitalize). -/
theorem mergeQuery_camelCase_lowerFirst_on_simple_names (types : List ObjCand)
    (c : Char) (cs : List Char)
    (hname : (types.head?.map fun t => t.type.name).getD "" = String.mk (c :: cs))
    (hc : 65 ≤ c.toNat ∧ c.toNat ≤ 90)
    (hcs : ∀ x ∈ cs, 97 ≤ x.toNat ∧ x.toNat ≤ 122) :
    mergeQueryFor types = lowerFirst (String.mk (c :: cs)) := by
  rw [mergeQueryFor, hname]
  have hall : ∀ x ∈ c :: cs, 65 ≤ x.toNat ∧ x.toNat ≤ 122 := by
    intro x hx
    rcases List.mem_cons.mp hx with h | h
    · subst h
      omega
    · have := hcs x h
      omega
  have hfilter := filter_apos_id (c :: cs) hall
  simp only [camelCase]
  rw [hfilter]
  simp only [wordsOf]
  rw [hasUnicodeWord_simple_name c cs hc hcs]
  simp only [Bool.false_eq_true, if_false]
  rw [splitRuns_all_true _ _ (by simp) fun x hx => asciiWordChar_letter x (by
    rcases List.mem_cons.mp hx with h | h
    · subst h
      exact .inl hc
    · exact .inr (hcs x h))]
  simp only [camelJoin, lowerWord, List.map_nil, List.flatten_nil, List.append_nil,
    List.map_cons]
  rw [map_toLower_of_lower cs hcs]
  rfl

/-- Witness for the amended C9 at the name `Foo`: the entry-point name is
`foo`, which here equals the lowercase-first form. -/
theorem mergeQuery_camelCase_lowerFirst_witness :
    mergeQueryFor [{ schema := 1, type := objFooT, replaceResolvers := true }] =
      lowerFirst (String.mk ['F', 'o', 'o']) :=
  mergeQuery_camelCase_lowerFirst_on_simple_names
    [{ schema := 1, type := objFooT, replaceResolvers := true }] 'F' ['o', 'o'] rfl
    (by decide) (by decide)

/-!
### C6 — local-schema resolvers: preserved for non-root fields only
-/

/-- Counterexample for C6: the local schema's root field `Query.q` has
its own resolver (id 7), yet the merged root field's resolution strategy
is the root delegation resolver bound to the local schema — the original
strategy is replaced, contradicting "never replaced by a delegation
resolver ... including its root Query/Mutation fields". -/
theorem local_root_resolver_replaced_cex :
    ∃ m, mergeRemoteSchemas [] (some localRootSchema) = .ok m ∧
      ∃ qt, m.query = some qt ∧
        ∃ cfg, getProp qt.fields "q" = some cfg ∧
          cfg.resolve = .rootDelegate 0 ∧ cfg.resolve ≠ .original (some 7) := by
  refine ⟨_, rfl, _, rfl, _, rfl, rfl, by decide⟩

/-- **C6 (amended).** Non-root fields owned by the local schema (its
candidates carry `replaceResolvers = false`) keep their original
resolution strategy and are never replaced by a delegation resolver; root
fields, however, are always bound to the root delegation resolver
targeting the owning schema — even when the owner is the local schema. -/
theorem local_resolver_preservation (types : List ObjCand) (nameSet : List String)
    (mergeQuery k : String) (w : FieldWinner)
    (hw : specFirstDeclarer types k = some w) (hlocal : w.replaceResolvers = false) :
    (getProp (createFieldMapConfig types nameSet mergeQuery) k).map (fun cfg => cfg.resolve) =
      some (.original w.field.resolve) ∧
    ∀ (rts : List RootCand) (ns : List String) (k2 : String),
      (∀ t ∈ rts, (t.type.fields.map Prod.fst).Nodup) →
      (getProp (createRootFieldMapConfig rts ns) k2).map (fun cfg => cfg.resolve) =
        (specRootCandidates rts k2).head?.map fun cand => ResolveStrategy.rootDelegate cand.1 := by
  constructor
  · rw [createFieldMapConfig_getProp, hw]
    simp [nonRootFieldConfig, hlocal]
  · intro rts ns k2 hwf
    rw [createRootFieldMapConfig, getProp_mapVals, collectRootFields_getProp _ _ hwf]
    cases specRootCandidates rts k2 with
    | nil => rfl
    | cons b bs => rfl

/-- Witness for the amended C6: a non-root field won by a
`replaceResolvers = false` candidate keeps its original resolver (id 7),
and on the root side the merged field of `localRootSchema` delegates. -/
theorem local_resolver_preservation_witness :
    (getProp
        (createFieldMapConfig [{ schema := 0, type := objResolvedT, replaceResolvers := false }]
          [] "t") "f").map (fun cfg => cfg.resolve) = some (.original (some 7)) ∧
    (getProp (createRootFieldMapConfig [{ schema := 0, type := localQueryRoot }] []) "q").map
        (fun cfg => cfg.resolve) = some (.rootDelegate 0) := by
  have h := local_resolver_preservation
    [{ schema := 0, type := objResolvedT, replaceResolvers := false }] [] "t" "f"
    { schema := 0, field := fdefResolved, replaceResolvers := false } rfl rfl
  exact ⟨h.1, by rw [h.2 _ [] "q" (by decide)]; rfl⟩

/-!
### C2 — mixed Object/non-Object type kinds abort the merge
-/

theorem processEntry_error_of_mixed (newTypes : List (String × PendingEntry))
    (cands : List Candidate) (h : isMixedIncludedBucket cands = true) :
    processEntry newTypes cands =
      .error ("Can\x27t merge non-Object type " ++
        ((cands.head?.map fun c => typeNameOf c.type).getD "") ++
        " with Object type of same name") := by
  simp only [isMixedIncludedBucket, Bool.and_eq_true, Bool.not_eq_true'] at h
  obtain ⟨⟨h1, h2⟩, h3⟩ := h
  simp [processEntry, h1, h2, h3]

theorem buildNewTypes_error_of_mixed (index : List (String × List Candidate))
    (acc : List (String × PendingEntry))
    (h : (index.any fun p => isMixedIncludedBucket p.2) = true) :
    ∃ msg, buildNewTypes acc index = .error msg := by
  induction index generalizing acc with
  | nil => simp at h
  | cons kv rest ih =>
    by_cases hb : isMixedIncludedBucket kv.2 = true
    · refine ⟨"Can\x27t merge non-Object type " ++
        ((kv.2.head?.map fun c => typeNameOf c.type).getD "") ++
        " with Object type of same name", ?_⟩
      simp only [buildNewTypes]
      rw [processEntry_error_of_mixed _ _ hb]
    · simp only [List.any_cons, Bool.or_eq_true] at h
      rcases h with h | h
      · exact absurd h hb
      · simp only [buildNewTypes]
        cases hp : processEntry acc kv.2 with
        | error e => exact ⟨e, rfl⟩
        | ok acc2 => exact ih acc2 h

/-- **C2.** Whenever some type name's candidate list — among the lists
that survive the filter dropping built-ins (`__` prefix), root type
names, and specified scalars — contains at least one Object type and at
least one non-Object type, `mergeRemoteSchemas` throws synchronously:
the result is an `Except.error`, and no merged schema is produced. -/
theorem mergeRemoteSchemas_mixed_type_kinds_error (schemas : List Schema)
    (localSchema : Option Schema)
    (h : ((buildIndex localSchema schemas).any fun p => isMixedIncludedBucket p.2) = true) :
    ∃ msg, mergeRemoteSchemas schemas localSchema = .error msg := by
  obtain ⟨msg, hmsg⟩ := buildNewTypes_error_of_mixed (buildIndex localSchema schemas) [] h
  exact ⟨msg, by simp [mergeRemoteSchemas, hmsg]⟩

/-- Witness for C2: one schema defines `Foo` as an Object type, another
as an Interface; the merge throws. -/
theorem mergeRemoteSchemas_mixed_type_kinds_error_witness :
    ((buildIndex none [fooObjectSchema, fooInterfaceSchema]).any
        fun p => isMixedIncludedBucket p.2) = true ∧
    ∃ msg, mergeRemoteSchemas [fooObjectSchema, fooInterfaceSchema] none = .error msg :=
  ⟨rfl, mergeRemoteSchemas_mixed_type_kinds_error [fooObjectSchema, fooInterfaceSchema] none rfl⟩

/-!
### C7 — only Query and Mutation are merged; Subscription is dropped
-/

theorem mergeRootTypes_isSome (types : List RootCand) (ns : List String) :
    (mergeRootTypes types ns).isSome = !types.isEmpty := by
  cases types <;> rfl

theorem filterMap_rootCands_isEmpty (ss : List Schema) (f : Schema → Option ObjectTypeDef) :
    (ss.filterMap fun s => (f s).map fun t => RootCand.mk s.sid t).isEmpty =
      !(ss.any fun s => (f s).isSome) := by
  induction ss with
  | nil => rfl
  | cons s rest ih =>
    cases hf : f s <;> simp [List.filterMap_cons, hf, ih, List.any_cons]

/-- Counterexample for C7: a schema defining a Subscription root type is
merged into a schema whose `subscription` is absent — the merged schema
never contains a Subscription root, because the final
`new GraphQLSchema({query, mutation, types})` call passes none and no
Subscription merge is ever performed. -/
theorem mergeRemoteSchemas_subscription_dropped_cex :
    subSchema.subscriptionType.isSome = true ∧
    (mergeRemoteSchemas [subSchema] none).toOption.map (fun m => m.subscription) =
      some none :=
  ⟨rfl, rfl⟩

/-- **C7 (amended).** `mergeRemoteSchemas` merges only the Query and
Mutation root types over the effective schema order: whenever it returns
a merged schema, that schema's Query (resp. Mutation) root is present iff
some source schema defines one, while its Subscription root is `none`
even when sources define Subscription types. -/
theorem mergeRemoteSchemas_root_types (schemas : List Schema) (localSchema : Option Schema)
    (m : MergedSchema) (h : mergeRemoteSchemas schemas localSchema = .ok m) :
    m.subscription = none ∧
    m.query.isSome = ((allSchemasOf schemas localSchema).any fun s => s.queryType.isSome) ∧
    m.mutation.isSome = ((allSchemasOf schemas localSchema).any fun s => s.mutationType.isSome) := by
  simp only [mergeRemoteSchemas] at h
  cases hb : buildNewTypes [] (buildIndex localSchema schemas) with
  | error e =>
    rw [hb] at h
    cases h
  | ok newTypes =>
    rw [hb] at h
    injection h with h2
    subst h2
    refine ⟨rfl, ?_, ?_⟩
    · rw [mergeRootTypes_isSome, filterMap_rootCands_isEmpty, Bool.not_not]
    · rw [mergeRootTypes_isSome, filterMap_rootCands_isEmpty, Bool.not_not]

/-- Witness for the amended C7 on `subSchema` (Query and Subscription
defined, Mutation absent): the merged schema has a Query root, no
Mutation root, and no Subscription root. -/
theorem mergeRemoteSchemas_root_types_witness :
    ∃ m, mergeRemoteSchemas [subSchema] none = .ok m ∧
      m.subscription = none ∧ m.query.isSome = true ∧ m.mutation.isSome = false := by
  refine ⟨_, rfl, ?_⟩
  have h := mergeRemoteSchemas_root_types [subSchema] none _ rfl
  exact ⟨h.1, h.2.1, h.2.2⟩

/-!
### C8 — recreated scalars: identity transport, not copied behavior
-/

/-- A custom scalar whose serialize/parseValue are not the identity. -/
def weirdScalar : ScalarType :=
  { name := "Weird", description := some "doc", astNode := none,
    serialize := fun _ => .str "serialized",
    parseValue := fun _ => .str "parsed",
    parseLiteralFn := fun _ => .null }

/-- Counterexample for C8: the recreated scalar's `serialize` and
`parseValue` differ from the original implementation's — the original
maps `true` to `"serialized"`, the recreated one returns `true`
unchanged. They are not copied. -/
theorem recreateScalarType_not_copied_cex :
    weirdScalar.serialize (.bool true) = .str "serialized" ∧
    (recreateScalarType weirdScalar).serialize (.bool true) = .bool true ∧
    (recreateScalarType weirdScalar).serialize (.bool true) ≠
      weirdScalar.serialize (.bool true) ∧
    weirdScalar.parseValue (.num "1") = .str "parsed" ∧
    (recreateScalarType weirdScalar).parseValue (.num "1") = .num "1" ∧
    (recreateScalarType weirdScalar).parseValue (.num "1") ≠
      weirdScalar.parseValue (.num "1") := by
  refine ⟨rfl, rfl, fun h => ?_, rfl, rfl, fun h => ?_⟩ <;> cases h

/-- **C8 (amended).** For every custom scalar, the recreated scalar's
`serialize` and `parseValue` are the identity function on all values —
they are installed fresh, not copied from the original implementation —
while the descriptive metadata (name, description, astNode) is copied
and the literal-to-value conversion is the module's generic
`parseLiteral`. -/
theorem recreateScalarType_identity_transport (t : ScalarType) (v : LitValue)
    (ast : ValueNode) :
    (recreateScalarType t).serialize v = v ∧
    (recreateScalarType t).parseValue v = v ∧
    (recreateScalarType t).parseLiteralFn ast = parseLiteral ast ∧
    (recreateScalarType t).name = t.name ∧
    (recreateScalarType t).description = t.description ∧
    (recreateScalarType t).astNode = t.astNode :=
  ⟨rfl, rfl, rfl, rfl, rfl, rfl⟩

/-!
### C1 — the entry-point (`mergeQuery`) delegation path
-/

/-- Counterexample for C1: the wrapped query is delegated exactly as
claimed, but the unwrap step is a JS truthiness check, not a
null/undefined check: a delegated result of `false` — which is neither
null nor undefined — yields `null`, whereas the claim's
`result[responseKey]` would be `undefined`. -/
theorem createFieldResolver_unwrap_falsy_cex :
    (createFieldResolver 3 (some "foo") (Value.obj [] []) (Value.obj [] []) 0 infoF =
      .delegateThen
        { schema := 3, operation := "query", fieldName := "foo",
          args := Value.obj [("id", Value.undefined)] [], context := 0,
          info := { infoF with
            fieldNodes := [FieldNode.mk none "foo" (some infoF.fieldNodes)] } }
        "f") ∧
    unwrapMergeResult "f" (Value.bool false) = Value.null ∧
    Value.bool false ≠ Value.null ∧
    Value.bool false ≠ Value.undefined ∧
    jsGet (Value.bool false) "f" = Value.undefined ∧
    Value.null ≠ Value.undefined := by
  refine ⟨rfl, rfl, fun h => ?_, fun h => ?_, rfl, fun h => ?_⟩ <;> cases h

/-- **C1 (amended).** For every field resolver bound to a non-empty
entry-point name `q`, when the parent object has no property under the
response key, the resolver delegates a synthesized query — single outer
field named `q`, argument `{id: parent.id}`, selection set exactly the
original field nodes — to the owning schema with operation `"query"`,
and the awaited continuation returns `result[responseKey]` when the
delegated result is truthy and `null` when it is falsy (not only for
null/undefined: also for `false`, `0`, `""`). -/
theorem createFieldResolver_mergeQuery_delegation (schema : Nat) (q : String)
    (props : List (String × Value)) (perrs : List ErrInfo) (args : Value) (context : Nat)
    (info : ResolveInfo)
    (hq : q ≠ "")
    (habs : getProp props (responseKeyOf info) = none) :
    createFieldResolver schema (some q) (Value.obj props perrs) args context info =
      .delegateThen
        { schema := schema, operation := "query", fieldName := q,
          args := Value.obj [("id", jsGet (Value.obj props perrs) "id")] [],
          context := context,
          info := { info with fieldNodes := [FieldNode.mk none q (some info.fieldNodes)] } }
        (responseKeyOf info) ∧
    ∀ result : Value,
      unwrapMergeResult (responseKeyOf info) result =
        (if jsTruthy result then jsGet result (responseKeyOf info) else Value.null) := by
  refine ⟨?_, fun result => rfl⟩
  simp [createFieldResolver, jsGet, jsTruthy, strTruthy, hq, habs]

/-- Witness for the amended C1: with `parent = {id: "x"}` missing the
requested field `f`, the resolver issues the wrapped `foo(id: "x")`
query; unwrapping a truthy result extracts its `f` property. -/
theorem createFieldResolver_mergeQuery_delegation_witness :
    createFieldResolver 3 (some "foo") (Value.obj [("id", Value.str "x")] [])
        (Value.obj [] []) 0 infoF =
      .delegateThen
        { schema := 3, operation := "query", fieldName := "foo",
          args := Value.obj [("id", Value.str "x")] [], context := 0,
          info := { infoF with
            fieldNodes := [FieldNode.mk none "foo" (some infoF.fieldNodes)] } }
        "f" ∧
    unwrapMergeResult "f" (Value.obj [("f", Value.str "v")] []) = Value.str "v" := by
  have h := createFieldResolver_mergeQuery_delegation 3 "foo" [("id", Value.str "x")] []
    (Value.obj [] []) 0 infoF (by decide) rfl
  exact ⟨h.1, rfl⟩

/-!
### C5 — partial-error propagation in the present branch
-/

theorem filter_head?_eq_find? {α : Type} (p : α → Bool) (l : List α) :
    (l.filter p).head? = l.find? p := by
  induction l with
  | nil => rfl
  | cons a rest ih =>
    by_cases h : p a <;> simp [List.filter_cons, List.find?_cons, h, ih]

theorem selectSubErrors_eq_spec (errs : List ErrInfo) (rk : String) :
    selectSubErrors errs rk = specSelectedErrors errs rk := by
  induction errs with
  | nil => rfl
  | cons e rest ih =>
    simp only [selectSubErrors, specSelectedErrors, List.filterMap_cons] at *
    cases hp : e.path with
    | none => simp [List.filter_cons, hp, ih]
    | some l =>
      cases l with
      | nil => simp [List.filter_cons, hp, ih]
      | cons p t =>
        cases p with
        | idx n => simp [List.filter_cons, hp, ih]
        | str s =>
          by_cases hs : s = rk
          · subst hs
            simp [List.filter_cons, hp, ih, List.tail]
          · have hne : ¬(PathSeg.str s = PathSeg.str rk) := by
              intro he
              cases he
              exact hs rfl
            simp [List.filter_cons, hp, ih, hne, hs]

theorem pushErr_of_carrier (v : Value) (e : ErrInfo) (h : isErrCarrier v = true) :
    ∃ v2, pushErr v e = .ok v2 := by
  cases v with
  | obj props errs => exact ⟨_, rfl⟩
  | arr elems errs => exact ⟨_, rfl⟩
  | undefined => cases h
  | null => cases h
  | bool b => cases h
  | num n => cases h
  | str s => cases h

theorem pushErr_ok (v v2 : Value) (e : ErrInfo) (h : pushErr v e = .ok v2) :
    stripTop v2 = stripTop v ∧ errsOf v2 = errsOf v ++ [e] ∧ isErrCarrier v2 = true := by
  cases v with
  | obj props errs =>
    injection h with h2
    subst h2
    exact ⟨rfl, rfl, rfl⟩
  | arr elems errs =>
    injection h with h2
    subst h2
    exact ⟨rfl, rfl, rfl⟩
  | undefined => cases h
  | null => cases h
  | bool b => cases h
  | num n => cases h
  | str s => cases h

/-- The attach precondition for the array branch, as a single check per
error: an index head, in range, onto an attachable element. -/
def attachWF (elems : List Value) (e : ErrInfo) : Bool :=
  match e.path with
  | some (PathSeg.idx n :: _) =>
    decide (n < elems.length) && isErrCarrier (elems.getD n Value.undefined)
  | _ => false

theorem attachWF_set (elems : List Value) (n : Nat) (v2 : Value) (e : ErrInfo)
    (hcar : isErrCarrier v2 = true) (h : attachWF elems e = true) :
    attachWF (elems.set n v2) e = true := by
  simp only [attachWF] at *
  cases hp : e.path with
  | none => rw [hp] at h; cases h
  | some l =>
    rw [hp] at h
    cases l with
    | nil => cases h
    | cons seg t =>
      cases seg with
      | str s => cases h
      | idx m =>
        simp only [Bool.and_eq_true, decide_eq_true_eq] at h ⊢
        refine ⟨by simpa [List.length_set] using h.1, ?_⟩
        rw [List.getD_eq_getElem?_getD, List.getElem?_set]
        by_cases hnm : n = m
        · subst hnm
          simp [List.getD_eq_getElem?_getD] at h
          simp [h.1, hcar]
        · simp only [if_neg hnm]
          rw [← List.getD_eq_getElem?_getD]
          exact h.2

theorem attachToElements_spec (sub : List ErrInfo) (elems : List Value)
    (hwf : (sub.all fun e => attachWF elems e) = true) :
    ∃ elems2, attachToElements elems sub = .ok elems2 ∧
      elems2.length = elems.length ∧
      ∀ i, i < elems.length →
        stripTop (elems2.getD i Value.undefined) = stripTop (elems.getD i Value.undefined) ∧
        errsOf (elems2.getD i Value.undefined) =
          errsOf (elems.getD i Value.undefined) ++ errsForIndex sub i := by
  induction sub generalizing elems with
  | nil =>
    refine ⟨elems, rfl, rfl, fun i hi => ⟨rfl, ?_⟩⟩
    simp [errsForIndex]
  | cons e rest ih =>
    rw [List.all_cons, Bool.and_eq_true] at hwf
    obtain ⟨he, hrest⟩ := hwf
    simp only [attachWF] at he
    cases hp : e.path with
    | none => rw [hp] at he; cases he
    | some l =>
      rw [hp] at he
      cases l with
      | nil => cases he
      | cons seg t =>
        cases seg with
        | str s => cases he
        | idx n =>
          rw [Bool.and_eq_true, decide_eq_true_eq] at he
          obtain ⟨hn, hcar⟩ := he
          have hvn : elems[n]? = some (elems.getD n Value.undefined) := by
            rw [List.getD_eq_getElem?_getD, List.getElem?_eq_getElem hn]
            rfl
          obtain ⟨v2, hv2⟩ :=
            pushErr_of_carrier (elems.getD n Value.undefined)
              { message := e.message, locations := e.locations, path := e.path.map List.tail }
              hcar
          obtain ⟨hstrip2, herrs2, hcar2⟩ := pushErr_ok _ _ _ hv2
          rw [hp] at hv2 herrs2
          simp only [Option.map_some', List.tail_cons] at hv2 herrs2
          have hstep : attachToElements elems (e :: rest) =
              attachToElements (elems.set n v2) rest := by
            simp only [attachToElements, hp, hvn, Option.map_some', List.tail_cons, hv2]
          obtain ⟨elems2, hrun, hlen, hchar⟩ :=
            ih (elems.set n v2)
              (List.all_eq_true.mpr fun e2 he2 =>
                attachWF_set elems n v2 e2 hcar2 (List.all_eq_true.mp hrest e2 he2))
          refine ⟨elems2, by rw [hstep, hrun], by rw [hlen, List.length_set],
            fun i hi => ?_⟩
          have hi2 : i < (elems.set n v2).length := by simpa [List.length_set] using hi
          obtain ⟨hstripI, herrsI⟩ := hchar i hi2
          have hfidx : errsForIndex (e :: rest) i =
              (if n = i then
                ErrInfo.mk e.message e.locations (some t) :: errsForIndex rest i
               else errsForIndex rest i) := by
            simp only [errsForIndex, List.filterMap_cons, hp]
            by_cases hni : n = i <;> simp [hni]
          by_cases hni : n = i
          · subst hni
            have hgetD2 : (elems.set n v2).getD n Value.undefined = v2 := by
              rw [List.getD_eq_getElem?_getD, List.getElem?_set]
              simp [hi]
            rw [hgetD2] at hstripI herrsI
            refine ⟨by rw [hstripI, hstrip2], ?_⟩
            rw [herrsI, herrs2, hfidx]
            simp
          · have hgetD2 : (elems.set n v2).getD i Value.undefined = elems.getD i Value.undefined := by
              rw [List.getD_eq_getElem?_getD, List.getElem?_set, if_neg hni,
                ← List.getD_eq_getElem?_getD]
            rw [hgetD2] at hstripI herrsI
            rw [hfidx, if_neg hni]
            exact ⟨hstripI, herrsI⟩

/-- **C5.** When the parent object already contains the response key and
carries attached partial errors: exactly the errors whose path's first
segment equals the response key are selected, with their paths shortened
by one segment (`specSelectedErrors`); if any selected error's shortened
path is empty, the first such error's message is raised as this field's
resolution failure and nothing is attached; otherwise the selected errors
are re-attached onto the returned value — directly for a non-array value
(replacing its error slot), and, for an array value, each error with
shortened path `i :: rest` is attached onto element `i` with path `rest`,
i.e. at the same response location one segment below the response key.
The `wellFormedAttach` hypothesis rules out the inputs on which the JS
attach loop would itself throw a `TypeError`. -/
theorem createFieldResolver_partial_error_propagation (schema : Nat) (mq : Option String)
    (props : List (String × Value)) (perrs : List ErrInfo) (args : Value) (context : Nat)
    (info : ResolveInfo) (result : Value)
    (hres : getProp props (responseKeyOf info) = some result)
    (hnu : result ≠ Value.undefined)
    (hwf : wellFormedAttach result (selectSubErrors perrs (responseKeyOf info)) = true) :
    selectSubErrors perrs (responseKeyOf info) =
      specSelectedErrors perrs (responseKeyOf info) ∧
    (match (selectSubErrors perrs (responseKeyOf info)).find?
        (fun e => match e.path with | some p => p.isEmpty | none => false) with
     | some fe =>
       createFieldResolver schema mq (Value.obj props perrs) args context info =
         .thrown fe.message
     | none =>
       presentAttachSpec (createFieldResolver schema mq (Value.obj props perrs) args context info)
         result (selectSubErrors perrs (responseKeyOf info))) := by
  refine ⟨selectSubErrors_eq_spec perrs (responseKeyOf info), ?_⟩
  rw [← filter_head?_eq_find?]
  cases result with
  | undefined => exact absurd rfl hnu
  | null =>
    simp only [wellFormedAttach, Bool.or_false] at hwf
    have hsub := List.isEmpty_iff.mp hwf
    rw [hsub]
    simp only [List.filter_nil, List.head?_nil, presentAttachSpec]
    simp only [createFieldResolver, jsTruthy, jsGet, errsOf, hres, Option.getD_some, hsub,
      List.filter_nil, List.length_nil, gt_iff_lt, Nat.lt_irrefl, if_false, if_true]
  | bool b =>
    simp only [wellFormedAttach, Bool.or_false] at hwf
    have hsub := List.isEmpty_iff.mp hwf
    rw [hsub]
    simp only [List.filter_nil, List.head?_nil, presentAttachSpec]
    simp only [createFieldResolver, jsTruthy, jsGet, errsOf, hres, Option.getD_some, hsub,
      List.filter_nil, List.length_nil, gt_iff_lt, Nat.lt_irrefl, if_false, if_true]
  | num n =>
    simp only [wellFormedAttach, Bool.or_false] at hwf
    have hsub := List.isEmpty_iff.mp hwf
    rw [hsub]
    simp only [List.filter_nil, List.head?_nil, presentAttachSpec]
    simp only [createFieldResolver, jsTruthy, jsGet, errsOf, hres, Option.getD_some, hsub,
      List.filter_nil, List.length_nil, gt_iff_lt, Nat.lt_irrefl, if_false, if_true]
  | str s =>
    simp only [wellFormedAttach, Bool.or_false] at hwf
    have hsub := List.isEmpty_iff.mp hwf
    rw [hsub]
    simp only [List.filter_nil, List.head?_nil, presentAttachSpec]
    simp only [createFieldResolver, jsTruthy, jsGet, errsOf, hres, Option.getD_some, hsub,
      List.filter_nil, List.length_nil, gt_iff_lt, Nat.lt_irrefl, if_false, if_true]
  | obj rp re =>
    cases hfe : (selectSubErrors perrs (responseKeyOf info)).filter
        (fun e => match e.path with | some p => p.isEmpty | none => false) with
    | cons fe tl =>
      rw [List.head?_cons]
      simp only [createFieldResolver, jsTruthy, jsGet, errsOf, hres, Option.getD_some, hfe, if_true]
    | nil =>
      rw [List.head?_nil]
      simp only [presentAttachSpec]
      by_cases hs : selectSubErrors perrs (responseKeyOf info) = []
      · rw [hs]
        simp only [List.isEmpty_nil, if_true]
        simp only [createFieldResolver, jsTruthy, jsGet, errsOf, hres, Option.getD_some, hs,
          List.filter_nil, List.length_nil, gt_iff_lt, Nat.lt_irrefl, if_false, if_true]
      · have hlen : 0 < (selectSubErrors perrs (responseKeyOf info)).length :=
          List.length_pos.mpr hs
        have hie : (selectSubErrors perrs (responseKeyOf info)).isEmpty = false := by
          rcases h2 : selectSubErrors perrs (responseKeyOf info) with _ | _
          · exact absurd h2 hs
          · rfl
        rw [hie]
        simp only [Bool.false_eq_true, if_false]
        simp only [createFieldResolver, jsTruthy, jsGet, errsOf, hres, Option.getD_some, hfe,
          gt_iff_lt, hlen, if_true]
  | arr elems errs0 =>
    cases hfe : (selectSubErrors perrs (responseKeyOf info)).filter
        (fun e => match e.path with | some p => p.isEmpty | none => false) with
    | cons fe tl =>
      rw [List.head?_cons]
      simp only [createFieldResolver, jsTruthy, jsGet, errsOf, hres, Option.getD_some, hfe, if_true]
    | nil =>
      rw [List.head?_nil]
      simp only [presentAttachSpec]
      by_cases hs : selectSubErrors perrs (responseKeyOf info) = []
      · refine ⟨elems, ?_, rfl, fun i hi => ⟨rfl, ?_⟩⟩
        · simp only [createFieldResolver, jsTruthy, jsGet, errsOf, hres, Option.getD_some, hs,
            List.filter_nil, List.length_nil, gt_iff_lt, Nat.lt_irrefl, if_false, if_true]
        · rw [hs]
          simp [errsForIndex]
      · have hlen : 0 < (selectSubErrors perrs (responseKeyOf info)).length :=
          List.length_pos.mpr hs
        have hwf2 : ((selectSubErrors perrs (responseKeyOf info)).all
            fun e => attachWF elems e) = true := by
          rw [List.all_eq_true]
          intro e hin
          have hP := List.filter_eq_nil_iff.mp hfe e hin
          rcases (Bool.or_eq_true _ _).mp hwf with hOr | hOr
          · exact absurd (List.isEmpty_iff.mp hOr) hs
          · have hW := List.all_eq_true.mp hOr e hin
            rw [attachWF]
            cases hep : e.path with
            | none => rw [hep] at hW; cases hW
            | some l =>
              rw [hep] at hW hP
              cases l with
              | nil => simp at hP
              | cons seg t =>
                cases seg with
                | str s2 => cases hW
                | idx n => exact hW
        obtain ⟨elems2, hrun, hlen2, hchar⟩ :=
          attachToElements_spec (selectSubErrors perrs (responseKeyOf info)) elems hwf2
        refine ⟨elems2, ?_, hlen2, hchar⟩
        simp only [createFieldResolver, jsTruthy, jsGet, errsOf, hres, Option.getD_some, hfe,
          gt_iff_lt, hlen, if_true, hrun]

/-- Witness for C5: the parent holds `foo` (an object) plus two attached
errors, one under `foo.x` and one under `bar`; the resolver returns the
`foo` value with exactly the `foo.x` error re-attached, path-shortened to
`x`. -/
theorem createFieldResolver_partial_error_propagation_witness :
    selectSubErrors errsFixture "foo" =
      [{ message := "boom", locations := none, path := some [.str "x"] }] ∧
    presentAttachSpec
      (createFieldResolver 3 none
        (Value.obj [("foo", Value.obj [("x", Value.num 1)] [])] errsFixture)
        (Value.obj [] []) 0 infoFoo)
      (Value.obj [("x", Value.num 1)] []) (selectSubErrors errsFixture "foo") ∧
    createFieldResolver 3 none
        (Value.obj [("foo", Value.obj [("x", Value.num 1)] [])] errsFixture)
        (Value.obj [] []) 0 infoFoo =
      .value (Value.obj [("x", Value.num 1)]
        [{ message := "boom", locations := none, path := some [.str "x"] }]) := by
  have h := createFieldResolver_partial_error_propagation 3 none
    [("foo", Value.obj [("x", Value.num 1)] [])] errsFixture (Value.obj [] []) 0 infoFoo
    (Value.obj [("x", Value.num 1)] []) rfl (fun he => by cases he) rfl
  exact ⟨rfl, h.2, h.2⟩

end MergeRemote
